import Mathlib

/-!
# wxbox: trade-item and recharge-code ledger (`chong/zhuanzhang.go`)

A shallow embedding of the SQLite ledger of `zhuanzhang.go` (tables
`recharge_records` and `trade_items`, created by `initDB`) and of the functions
that read and write it.

Conventions of the embedding.

* A table is the list of its rows in rowid order; `QueryRow` and `LIMIT 1` take
  the first row that satisfies the `WHERE` clause.
* A Go `error` result is an `Option Err`, `none` being `nil`.
* Statements are taken to run to completion: the only failures are the ones
  SQLite reports for the data itself (`sql.ErrNoRows`, a violated `UNIQUE` or
  `NOT NULL` constraint).
* `float64` values are kept as the numbers they denote (`Num`); NaN, which
  SQLite binds as NULL, is the `none` of `Float64`.
-/

namespace Wxbox

/-! ## Data model -/

/-- A `float64` other than NaN: a finite value, carried as the rational it
denotes (`+0` and `-0` compare equal in Go and in SQLite and are one value
here), or an infinity. These are the values a `REAL NOT NULL` column holds. -/
inductive Num where
  | fin (q : Rat)
  | inf (neg : Bool)
deriving DecidableEq, Repr

/-- A Go `float64`; `none` is NaN. -/
abbrev Float64 := Option Num

/-- Sign test `x <= 0` on a `float64` that is not NaN. -/
def Num.nonpos : Num → Bool
  | .fin q => decide (q ≤ 0)
  | .inf neg => neg

/-- Sign test `x > 0` on a `float64` that is not NaN. -/
def Num.pos : Num → Bool
  | .fin q => decide (0 < q)
  | .inf neg => !neg

/-- A row of `recharge_records`
(`id`, `amount REAL NOT NULL`, `recharge_code TEXT NOT NULL UNIQUE`,
`used INTEGER NOT NULL DEFAULT 0`). -/
structure RechargeRecord where
  id : Nat
  amount : Num
  recharge_code : String
  used : Int
deriving DecidableEq, Repr

/-- A row of `trade_items` (Go struct `TradeItem`). The nullable text columns
are plain strings: `insertTradeItem`, the only `INSERT`, writes `""`, never
NULL. -/
structure TradeItem where
  id : Nat
  seller : String
  buyers : String
  group_id : String
  item_name : String
  description : String
  price : Num
  quantity : Int
  image_file_name : String
deriving DecidableEq, Repr

/-- The ledger: the two tables of `initDB` the trade engine uses. -/
structure DB where
  recharge_records : List RechargeRecord
  trade_items : List TradeItem
deriving DecidableEq, Repr

/-- The non-nil `error` values the ledger functions return. -/
inductive Err where
  /-- The error `sql.ErrNoRows` -/
  | ErrNoRows
  /-- a violated `UNIQUE` or `NOT NULL` constraint, reported by `db.Exec`, with
  the text SQLite gives it -/
  | constraint (text : String)
  /-- The error `fmt.Errorf("充值码不存在")` -/
  | codeNotFound
  /-- The error `fmt.Errorf("充值码已被使用")` -/
  | codeAlreadyUsed
deriving DecidableEq, Repr

/-- The text of an error, `err.Error()`. -/
def Err.Error : Err → String
  | .ErrNoRows => "sql: no rows in result set"
  | .constraint text => text
  | .codeNotFound => "充值码不存在"
  | .codeAlreadyUsed => "充值码已被使用"

instance instDecidableEqExcept {ε α : Type} [DecidableEq ε] [DecidableEq α] :
    DecidableEq (Except ε α)
  | .ok a, .ok b => if h : a = b then isTrue (by rw [h]) else isFalse (by intro e; cases e; exact h rfl)
  | .error a, .error b =>
    if h : a = b then isTrue (by rw [h]) else isFalse (by intro e; cases e; exact h rfl)
  | .ok _, .error _ => isFalse (by intro e; cases e)
  | .error _, .ok _ => isFalse (by intro e; cases e)

/-- The id `AUTOINCREMENT` gives the next row: one more than the largest id of
the table (no row is ever deleted). -/
def nextId (ids : List Nat) : Nat := ids.foldl max 0 + 1

/-! ## Recharge records -/

/-- Function `insertRechargeRecord`:
`INSERT INTO recharge_records (amount, recharge_code, used) VALUES (?, ?, 0)`.
A NaN amount is bound as NULL and violates `NOT NULL`; a code already in the
table violates `UNIQUE`. -/
def insertRechargeRecord (db : DB) (amount : Float64) (rechargeCode : String) :
    Option Err × DB :=
  match amount with
  | none => (some (.constraint "NOT NULL constraint failed: recharge_records.amount"), db)
  | some a =>
    if db.recharge_records.any (fun r => r.recharge_code == rechargeCode) then
      (some (.constraint "UNIQUE constraint failed: recharge_records.recharge_code"), db)
    else
      (none, { db with recharge_records := db.recharge_records ++
        [{ id := nextId (db.recharge_records.map (·.id)), amount := a,
           recharge_code := rechargeCode, used := 0 }] })

/-- Function `getRechargeCodeByAmount`:
`SELECT recharge_code FROM recharge_records WHERE amount = ? AND used = 0 LIMIT 1`.
On an error the Go function returns `("", err)`. -/
def getRechargeCodeByAmount (db : DB) (amount : Float64) : Except Err String :=
  match db.recharge_records.find? (fun r => some r.amount == amount && r.used == 0) with
  | none => .error .ErrNoRows
  | some r => .ok r.recharge_code

/-- Statement `UPDATE recharge_records SET used = 1 WHERE recharge_code = ?`. -/
def markUsed (rs : List RechargeRecord) (code : String) : List RechargeRecord :=
  rs.map (fun r => if r.recharge_code = code then { r with used := 1 } else r)

/-- Function `redeemRechargeCode`: select `amount, used` of the row with the code, fail
when there is none or when `used != 0`, else set `used = 1` and return the
amount. On an error the Go function returns `(0, err)`. -/
def redeemRechargeCode (db : DB) (code : String) : Except Err Num × DB :=
  match db.recharge_records.find? (fun r => r.recharge_code == code) with
  | none => (.error .codeNotFound, db)
  | some r =>
    if r.used ≠ 0 then (.error .codeAlreadyUsed, db)
    else (.ok r.amount, { db with recharge_records := markUsed db.recharge_records code })

/-! ## Trade items -/

/-- Function `insertTradeItem`: `INSERT INTO trade_items (...) VALUES (?, "", "", ?, ?, ?, ?, "")`.
No check is made on `price` or `quantity`; a NaN price is bound as NULL and
violates `NOT NULL`. -/
def insertTradeItem (db : DB) (seller itemName description : String)
    (price : Float64) (quantity : Int) : Option Err × DB :=
  match price with
  | none => (some (.constraint "NOT NULL constraint failed: trade_items.price"), db)
  | some p =>
    (none, { db with trade_items := db.trade_items ++
      [{ id := nextId (db.trade_items.map (·.id)), seller := seller, buyers := "",
         group_id := "", item_name := itemName, description := description,
         price := p, quantity := quantity, image_file_name := "" }] })

/-- Function `bindTradeItemToGroup`: `UPDATE trade_items SET group_id = ? WHERE id = ?`.
The number of rows changed is not looked at: the result is `nil` also when no
row has the id. -/
def bindTradeItemToGroup (db : DB) (tradeItemID : Int) (groupID : String) :
    Option Err × DB :=
  (none, { db with trade_items := db.trade_items.map (fun t =>
    if (t.id : Int) = tradeItemID then { t with group_id := groupID } else t) })

/-- Function `updateTradeItemImage`: `UPDATE trade_items SET image_file_name = ? WHERE id = ?`. -/
def updateTradeItemImage (db : DB) (tradeItemID : Int) (fileName : String) :
    Option Err × DB :=
  (none, { db with trade_items := db.trade_items.map (fun t =>
    if (t.id : Int) = tradeItemID then { t with image_file_name := fileName } else t) })

/-- The `UPDATE trade_items SET buyers = CONCAT(IFNULL(buyers, ''), ?, '|'),
quantity = quantity - 1 WHERE id = ? AND quantity > 0` of `processRechargeCode`
(`CONCAT` being SQLite's string concatenation). -/
def sellOne (ts : List TradeItem) (tradeItemID : Nat) (buyerNickname : String) :
    List TradeItem :=
  ts.map (fun t =>
    if t.id = tradeItemID ∧ t.quantity > 0 then
      { t with buyers := t.buyers ++ buyerNickname ++ "|", quantity := t.quantity - 1 }
    else t)

/-- Statement `SELECT id, price FROM trade_items WHERE group_id = ?` read with `QueryRow`:
the first item bound to the group. -/
def boundItem (db : DB) (groupID : String) : Option TradeItem :=
  db.trade_items.find? (fun t => t.group_id == groupID)

/-- Function `processRechargeCode`. The code is a Go `int`; compared with the `TEXT`
column it is taken in its decimal writing. The row for the group is the first
one whose `group_id` is the group. When amount and price differ the function
returns the variable `err`, which is `nil` there (both `Scan`s succeeded). -/
def processRechargeCode (db : DB) (groupID : String) (rechargeCode : Int)
    (buyerNickname : String) : Option Err × DB :=
  match db.recharge_records.find?
      (fun r => r.recharge_code == toString rechargeCode && r.used == 0) with
  | none => (some .ErrNoRows, db)
  | some r =>
    match boundItem db groupID with
    | none => (some .ErrNoRows, db)
    | some t =>
      if r.amount ≠ t.price then (none, db)
      else
        (none, { recharge_records := markUsed db.recharge_records (toString rechargeCode),
                 trade_items := sellOne db.trade_items t.id buyerNickname })

/-! ## Text of a message

Texts are Lean strings (valid UTF-8), read character by character; the library
functions of `strings`, `strconv` and `regexp` the handlers call are written
out here for the patterns the handlers use. `strconv.ParseFloat(s, 64)` is a
parameter of the handlers: `none` is a non-nil `err`, `some none` is NaN. -/

/-- Function `strings.HasPrefix(s, p)`. -/
def HasPrefix (s p : String) : Bool := p.data.isPrefixOf s.data

/-- The field separator of the create commands, the full-width comma (U+FF0C). -/
def comma : Char := '，'

/-- The line feed, which `.` of a Go regular expression does not match. -/
def lineFeed : Char := Char.ofNat 10

/-- Pattern `\s` of a Go regular expression: tab, line feed, form feed, carriage return, space. -/
def isSpace (c : Char) : Bool :=
  c.toNat == 9 || c.toNat == 10 || c.toNat == 12 || c.toNat == 13 || c.toNat == 32

/-- Function `strings.Split` on a one-character separator, over the characters of the text. -/
def splitChars (sep : Char) : List Char → List (List Char)
  | [] => [[]]
  | c :: cs =>
    if c = sep then [] :: splitChars sep cs
    else
      match splitChars sep cs with
      | [] => [[c]]
      | f :: fs => (c :: f) :: fs

/-- Function `strings.Split(s, "，")`. -/
def Split (s : String) : List String := (splitChars comma s.data).map String.mk

/-- The number a run of ASCII digits writes. -/
def digitsVal (ds : List Char) : Nat := ds.foldl (fun n c => 10 * n + (c.toNat - 48)) 0

/-- Function `strconv.Atoi` for the 64-bit `int`: the value and whether `err` is `nil`.
A text that is not an optional sign followed by one or more ASCII digits gives
`0` and a syntax error; a number outside `[-2^63, 2^63 - 1]` gives the nearest
bound and a range error. -/
def Atoi (s : String) : Int × Bool :=
  let ds := match s.data with
    | '-' :: r => r
    | '+' :: r => r
    | r => r
  let neg := match s.data with
    | '-' :: _ => true
    | _ => false
  if ds.isEmpty || !ds.all Char.isDigit then (0, false)
  else if neg then
    (if (digitsVal ds : Int) ≤ 9223372036854775808 then (-(digitsVal ds : Int), true)
     else (-9223372036854775808, false))
  else
    (if (digitsVal ds : Int) < 9223372036854775808 then ((digitsVal ds : Int), true)
     else (9223372036854775807, false))

/-- Take a literal off the head of a text. -/
def dropLit : List Char → List Char → Option (List Char)
  | [], cs => some cs
  | _ :: _, [] => none
  | l :: ls, c :: cs => if l = c then dropLit ls cs else none

/-- Pattern `\d+(\.\d+)?` at the head of a text, each part taking all it can: the match
and what follows it. -/
def matchDecimal (cs : List Char) : Option (List Char × List Char) :=
  match cs.span Char.isDigit with
  | ([], _) => none
  | (i, []) => some (i, [])
  | (i, c :: r) =>
    if c = '.' then
      match r.span Char.isDigit with
      | ([], _) => some (i, c :: r)
      | (f, r') => some (i ++ c :: f, r')
    else some (i, c :: r)

/-- Function `regexp.MustCompile("充值(\\d+(\\.\\d+)?)").FindStringSubmatch`: group 1 of
the leftmost match, `none` when the result is empty. -/
def findRecharge : List Char → Option (List Char)
  | [] => none
  | c :: cs =>
    match (dropLit "充值".data (c :: cs)).bind matchDecimal with
    | some (m, _) => some m
    | none => findRecharge cs

/-- Function `regexp.MustCompile("^交易\\d+").MatchString`. -/
def matchTradeDigits (cs : List Char) : Bool :=
  match dropLit "交易".data cs with
  | some (d :: _) => d.isDigit
  | _ => false

/-- The pattern `，价格：(\d+(\.\d+)?)，描述：\s*(.*)$` at the head of a text: group 3
of the start-trade pattern (the price). -/
def matchPriceDesc (cs : List Char) : Option (List Char) :=
  match (dropLit "，价格：".data cs).bind matchDecimal with
  | none => none
  | some (price, r) =>
    match dropLit "，描述：".data r with
    | none => none
    | some d => if (d.dropWhile isSpace).all (fun c => c != lineFeed) then some price else none

/-- The pattern `(.+)，价格：(\d+(\.\d+)?)，描述：\s*(.*)$` at the head of a text, the
name taking all it can: groups 2 and 3 of the start-trade pattern. -/
def matchNamePrice : List Char → Option (List Char × List Char)
  | [] => none
  | c :: cs =>
    if c = lineFeed then none
    else
      match matchNamePrice cs with
      | some (name, price) => some (c :: name, price)
      | none => (matchPriceDesc cs).map (fun price => ([c], price))

/-- Result of `FindStringSubmatch` of
`^开始交易(\d+)号，名称：(.+)，价格：(\d+(\.\d+)?)，描述：\s*(.*)$`: groups 1, 2 and 3,
`none` when the result is empty. -/
def matchTradeStart (cs : List Char) : Option (List Char × List Char × List Char) :=
  match dropLit "开始交易".data cs with
  | none => none
  | some r =>
    match r.span Char.isDigit with
    | ([], _) => none
    | (tradeID, r1) =>
      match (dropLit "号，名称：".data r1).bind matchNamePrice with
      | none => none
      | some (name, price) => some (tradeID, name, price)

/-- Result of `FindStringSubmatch` of `^兑换码：(\d+)$`: group 1, `none` when the result is empty. -/
def matchRedeemCode (cs : List Char) : Option (List Char) :=
  match dropLit "兑换码：".data cs with
  | some (d :: ds) => if (d :: ds).all Char.isDigit then some (d :: ds) else none
  | _ => none

/-- An instance of `strconv.ParseFloat` for the worked inputs: an optional sign
and ASCII digits writing an integer of absolute value at most `2^53`, which
`float64` holds exactly, are read as that integer. The instance refuses every
other text. It is used where it agrees with `strconv.ParseFloat`: at `50`, `0`
and `-5`, at the empty text (a syntax error), and at the 310 digits of
`feeDescHuge`, which write `10^309`, more than the largest `float64` (a range
error). -/
def parseDecimal (s : String) : Option Float64 :=
  match Atoi s with
  | (n, true) => if n.natAbs ≤ 9007199254740992 then some (some (.fin n)) else none
  | (_, false) => none

/-! ## Amount of a transfer -/

/-- The part of the decoded payment message (`Msg.AppMsg.WcpayInfo`) that
`extractAmountFromXML` reads. -/
structure WcpayInfo where
  PaySubType : Int
  FeeDesc : String

/-- Function `regexp.MustCompile("[0-9]+(?:\\.[0-9]+)?").FindString`: the leftmost
match, the empty text when there is none. -/
def findDecimal : List Char → List Char
  | [] => []
  | c :: cs =>
    match matchDecimal (c :: cs) with
    | some (m, _) => m
    | none => findDecimal cs

/-- Function `extractAmountFromXML`. `Unmarshal` stands for `xml.Unmarshal` into
`Msg`, `none` being a non-nil `err`; `ParseFloat` for `strconv.ParseFloat`. The
result `0` is `some (.fin 0)`. -/
def extractAmountFromXML (Unmarshal : String → Option WcpayInfo)
    (ParseFloat : String → Option Float64) (content : String) : Float64 :=
  match Unmarshal content with
  | none => some (.fin 0)
  | some info =>
    if info.PaySubType = 3 then some (.fin 0)
    else
      match ParseFloat (String.mk (findDecimal info.FeeDesc.data)) with
      | none => some (.fin 0)
      | some amount => amount

/-- A text of the form digits or digits.digits (ASCII digits, one or more in
each run). -/
def DecimalForm (m : List Char) : Prop :=
  (m ≠ [] ∧ m.all Char.isDigit = true) ∨
  ∃ i f, m = i ++ '.' :: f ∧ i ≠ [] ∧ i.all Char.isDigit = true ∧
    f ≠ [] ∧ f.all Char.isDigit = true

/-- A fee description of 310 digits, writing `10^309`. -/
def feeDescHuge : String := String.mk ('1' :: List.replicate 309 '0')

/-! ## Message handlers -/

/-- What a handler does besides writing the ledger. -/
inductive Out where
  /-- The call `msg.ReplyText(text)` -/
  | ReplyText (text : String)
  /-- The call `msg.ReplyText(getCurrentEventFromDB(db))` -/
  | eventText
  /-- The call `handleUserHistory(msg, db, nick)` -/
  | handleUserHistory (nick : String)
  /-- The call `handleMyTradeItems(msg, db, seller)` -/
  | handleMyTradeItems (seller : String)
  /-- The call `handleTradeZone(msg, db)` -/
  | handleTradeZone
  /-- The call `handleSpecificTradeItem(msg, db)` -/
  | handleSpecificTradeItem
  /-- The call `replyToUser(self, userName, content)` -/
  | replyToUser (userName content : String)
  /-- The call `sendtupian(msg, imagePath)` -/
  | sendtupian (imagePath : String)
  /-- The call `msg.ReplyText(fmt.Sprintf("用户已转账 %.2f 元，请进行下一步交易。", amount))` -/
  | replyTransferred (amount : Num)
  /-- The call `sendPicture(msg, imageFileName)` -/
  | sendPicture (imageFileName : String)
deriving DecidableEq, Repr

/-- Every output but the calls of `handleTradeZone` and `handleSpecificTradeItem`. -/
def Out.reachable : Out → Bool
  | .handleTradeZone => false
  | .handleSpecificTradeItem => false
  | _ => true

/-- The help text of `handlePrivateMessage`. -/
def helpMessage : String :=
  "命令指南:\n" ++
  "    - \"帮助\": 显示此帮助信息。\n" ++
  "    - \"创建交易品，名称，价格，数量[，描述]\": 创建一个新的交易品。描述为可选项。\n" ++
  "    - \"我的交易品\": 查询你创建的交易品列表。\n" ++
  "    - \"交易区\": 浏览当前可用的交易品列表。\n" ++
  "    - \"交易区：[]\": 浏览当前[指定名字]可用的交易品列表。\n" ++
  "    - \"交易[交易ID]号\": 交易[指定ID]号的交易品\n" ++
  "    - \"开始交易[交易ID]号，名称：[名称]，价格：[价格]，描述：[描述]\": 在群聊中启动一个交易。请确保交易ID正确。\n" ++
  "    - \"兑换码：[充值码]\": 使用兑换码完成充值交易支付。\n" ++
  "    \n" ++
  "    请根据指令格式发送消息，确保信息的正确性。"

/-- The reply to a create command with too few or too many fields, private chat. -/
def incompletePrivate : String :=
  "交易品信息不完整，请按照格式输入：\x27交易，卖家名称，名称，价格[，数量][，描述]\x27"

/-- The reply to a create command with too few or too many fields, group chat. -/
def incompleteGroup : String :=
  "交易品信息不完整，请按照格式输入：\x27交易，名称，价格[，数量][，描述]\x27"

/-- The reply to a create command that was carried out. -/
def createdReply (itemName : String) : String :=
  "交易品" ++ itemName ++ "创建完成！请创建新群聊并且将二维码发到此微信以便于进行交易"

/-- The quantity of a create command: `1` when the field is missing
(`quantity := 1`), else `strconv.Atoi` of the field. -/
def quantityOf (quantityField : Option String) : Int × Bool :=
  match quantityField with
  | none => (1, true)
  | some q => Atoi q

/-- The body both handlers run on the fields of a create command: parse the
price, parse the quantity when the field is there (1 otherwise), insert. -/
def createTradeItem (ParseFloat : String → Option Float64) (db : DB)
    (sellerName itemName priceField : String) (quantityField : Option String)
    (description : String) : List Out × DB :=
  match ParseFloat priceField with
  | none => ([.ReplyText "价格格式不正确。请确保是数字。"], db)
  | some price =>
    match quantityOf quantityField with
    | (_, false) => ([.ReplyText "数量格式不正确。请确保是整数。"], db)
    | (quantity, true) =>
      match insertTradeItem db sellerName itemName description price quantity with
      | (some err, db1) => ([.ReplyText ("创建交易品失败：" ++ err.Error)], db1)
      | (none, db1) => ([.ReplyText (createdReply itemName)], db1)

/-- The `if strings.HasPrefix(msg.Content, "充值")` block of `handlePrivateMessage`:
its replies and whether it returned from the handler. -/
def rechargeBlock (ParseFloat : String → Option Float64) (db : DB) (content : String) :
    List Out × Bool :=
  if HasPrefix content "充值" then
    match findRecharge content.data with
    | none => ([], false)
    | some amountStr =>
      match ParseFloat (String.mk amountStr) with
      | none => ([.ReplyText "无法解析金额，请确保格式正确。例如：充值100"], true)
      | some amount =>
        match getRechargeCodeByAmount db amount with
        | .error _ => ([.ReplyText "未找到对应金额的充值码，或已被使用。"], true)
        | .ok rechargeCode =>
          ([.ReplyText ("兑换码：" ++ rechargeCode ++ "，请复制上面这句话发送到微信群中获取星卷。")],
           false)
  else ([], false)

/-- The `switch` that ends `handlePrivateMessage`; the first case that holds is taken. -/
def privateSwitch (ParseFloat : String → Option Float64) (db : DB) (nick content : String) :
    List Out × DB :=
  if HasPrefix content "交易" then
    match Split content with
    | [_, sellerName, itemName, price] =>
      createTradeItem ParseFloat db sellerName itemName price none ""
    | [_, sellerName, itemName, price, quantity] =>
      createTradeItem ParseFloat db sellerName itemName price (some quantity) ""
    | [_, sellerName, itemName, price, quantity, description] =>
      createTradeItem ParseFloat db sellerName itemName price (some quantity) description
    | _ => ([.ReplyText incompletePrivate], db)
  else if HasPrefix content "我的交易品" then ([.handleMyTradeItems nick], db)
  else if HasPrefix content "交易区" then ([.handleTradeZone], db)
  else if matchTradeDigits content.data then ([.handleSpecificTradeItem], db)
  else ([], db)

/-- Function `handlePrivateMessage` on a text message (`msg.IsPicture()` and
`msg.IsTransferAccounts()` are false) whose sender is known, `nick` being
`sender.NickName`: the replies and calls it makes, in order, and the ledger it
leaves. -/
def handlePrivateMessage (ParseFloat : String → Option Float64) (db : DB)
    (nick content : String) : List Out × DB :=
  if content = "价格表" then ([.eventText], db)
  else if content = "我的历史" then ([.handleUserHistory nick], db)
  else
    let help : List Out := if content = "帮助" then [.ReplyText helpMessage] else []
    match rechargeBlock ParseFloat db content with
    | (out, true) => (help ++ out, db)
    | (out, false) =>
      ((help ++ out) ++ (privateSwitch ParseFloat db nick content).1,
       (privateSwitch ParseFloat db nick content).2)

/-- The sender of a group message, as `handleGroupMessage` reads it. -/
structure GroupSender where
  /-- Field `qun.UserName`, the id of the group -/
  qun : String
  /-- Field `sender.NickName` -/
  nick : String
  /-- Field `sender.UserName` -/
  userName : String
  /-- the `UserName`s of `self.Groups()`, `none` when the call fails -/
  groups : Option (List String)
  /-- whether `sendtupian` returns `nil` -/
  sendtupianOk : Bool

/-- The `switch` that ends `handleGroupMessage`. -/
def groupSwitch (ParseFloat : String → Option Float64) (db : DB) (nick content : String) :
    List Out × DB :=
  if HasPrefix content "交易" then
    match Split content with
    | [_, itemName, price] =>
      createTradeItem ParseFloat db nick itemName price none ""
    | [_, itemName, price, quantity] =>
      createTradeItem ParseFloat db nick itemName price (some quantity) ""
    | [_, itemName, price, quantity, description] =>
      createTradeItem ParseFloat db nick itemName price (some quantity) description
    | _ => ([.ReplyText incompleteGroup], db)
  else if HasPrefix content "我的交易" then ([.handleMyTradeItems nick], db)
  else if HasPrefix content "交易区" then ([.handleTradeZone], db)
  else if matchTradeDigits content.data then ([.handleSpecificTradeItem], db)
  else ([], db)

/-- Function `handleGroupMessage` on a text message whose group and sender are known:
the start-trade form, the redeem-code form, then the `switch`. -/
def handleGroupMessage (ParseFloat : String → Option Float64) (db : DB)
    (sender : GroupSender) (content : String) : List Out × DB :=
  match matchTradeStart content.data with
  | some (tradeID, tradeName, tradePrice) =>
    match bindTradeItemToGroup db (Atoi (String.mk tradeID)).1 sender.qun with
    | (some _, db1) => ([.ReplyText "交易绑定失败，请重试。"], db1)
    | (none, db1) =>
      ([.ReplyText "现在开始交易，请买家扫描下方二维码联系微信转账，进行下一步指示",
        .replyToUser sender.userName
          ("您的交易开始，请您转账" ++ String.mk tradePrice ++ "元购买" ++ String.mk tradeName ++
            "，将返回下一步提示"),
        .sendtupian "/root/chatgpt-on-wechat/group/image/名片.jpg"] ++
       (if sender.sendtupianOk then [] else [.ReplyText "发送图片失败，请稍后再试。"]),
       db1)
  | none =>
    match matchRedeemCode content.data with
    | some rechargeCode =>
      match sender.groups with
      | none => ([], db)
      | some groups =>
        if groups.contains sender.qun then ([], db)
        else
          match redeemRechargeCode db (String.mk rechargeCode) with
          | (.error err, db1) => ([.ReplyText ("处理兑换码出错: " ++ err.Error)], db1)
          | (.ok amount, db1) => ([.replyTransferred amount], db1)
    | none => groupSwitch ParseFloat db sender.nick content

/-- The code with which `handleGroupMessage` enters its redeem-code block
(`rechargeCode := rechargeCodeMatches[1]`); `none` when the text takes another
branch of the handler. -/
def redeemCodeOf (content : String) : Option String :=
  match matchTradeStart content.data with
  | some _ => none
  | none => (matchRedeemCode content.data).map String.mk

/-- The redeem-code block of `handleGroupMessage`, for the code it recovered. -/
def redeemBlock (db : DB) (sender : GroupSender) (rechargeCode : String) : List Out × DB :=
  match sender.groups with
  | none => ([], db)
  | some groups =>
    if groups.contains sender.qun then ([], db)
    else
      match redeemRechargeCode db rechargeCode with
      | (.error err, db1) => ([.ReplyText ("处理兑换码出错: " ++ err.Error)], db1)
      | (.ok amount, db1) => ([.replyTransferred amount], db1)

/-- A sender in group `"g"`, a group the account is not listed in. -/
def someSender : GroupSender :=
  { qun := "g", nick := "老王", userName := "u", groups := some [], sendtupianOk := true }

/-- The empty ledger. -/
def emptyDB : DB := { recharge_records := [], trade_items := [] }

/-! ## Reports on trade items -/

/-- The amount in hundredths that `%.2f` prints for a finite value: the value
times 100, rounded to the nearest integer, a tie going to the even one. -/
def cents (q : Rat) : Nat :=
  if 2 * (q.num.natAbs * 100 % q.den) > q.den ∨
      (2 * (q.num.natAbs * 100 % q.den) = q.den ∧ q.num.natAbs * 100 / q.den % 2 = 1) then
    q.num.natAbs * 100 / q.den + 1
  else q.num.natAbs * 100 / q.den

/-- The two decimals `%.2f` prints after the point. -/
def twoDigits (n : Nat) : List Char := [Char.ofNat (48 + n / 10 % 10), Char.ofNat (48 + n % 10)]

/-- The text `fmt.Sprintf("%.2f", x)` of a `float64` that is not NaN. -/
def Sprintf2f : Num → String
  | .fin q =>
    (if q < 0 then "-" else "") ++ toString (cents q / 100) ++ "." ++
      String.mk (twoDigits (cents q % 100))
  | .inf false => "+Inf"
  | .inf true => "-Inf"

/-- Function `getUserTradeItems`: `SELECT id, item_name, description, price, quantity,
image_file_name FROM trade_items WHERE seller = ? AND quantity > 0`, each row
scanned into a fresh `TradeItem`. The columns `seller`, `buyers` and `group_id`
are not selected, so these fields keep the zero value `""`. -/
def getUserTradeItems (db : DB) (seller : String) : List TradeItem :=
  (db.trade_items.filter (fun t => t.seller == seller && decide (t.quantity > 0))).map
    (fun t => { id := t.id, seller := "", buyers := "", group_id := "",
                item_name := t.item_name, description := t.description, price := t.price,
                quantity := t.quantity, image_file_name := t.image_file_name })

/-- The sold count `handleMyTradeItems` computes for an item:
`buyers := strings.Split(item.Buyers, "|")`, `soldOut := len(buyers)`, and
`soldOut = 0` when `buyers[0] == ""`. -/
def soldOut (item : TradeItem) : Nat :=
  match splitChars '|' item.buyers.data with
  | [] => 0
  | b :: bs => if b = [] then 0 else (b :: bs).length

/-- The reply of `handleMyTradeItems` for one item, `fmt.Sprintf("交易品ID：%d，名称：%s，
价格：%.2f，描述：%s，数量：%d，已售出：%d", ...)`. -/
def myTradeItemText (item : TradeItem) : String :=
  "交易品ID：" ++ toString item.id ++ "，名称：" ++ item.item_name ++ "，价格：" ++
    Sprintf2f item.price ++ "，描述：" ++ item.description ++ "，数量：" ++
    toString item.quantity ++ "，已售出：" ++ toString (soldOut item)

/-- Function `handleMyTradeItems`: one reply for each item of `getUserTradeItems`,
followed by its picture when it has one. -/
def handleMyTradeItems (db : DB) (seller : String) : List Out :=
  match getUserTradeItems db seller with
  | [] => [.ReplyText "您当前没有交易品。"]
  | items =>
    items.flatMap (fun item =>
      [Out.ReplyText (myTradeItemText item)] ++
        (if item.image_file_name ≠ "" then [Out.sendPicture item.image_file_name] else []))

/-- Function `getTradeItemByID`: `SELECT id, seller, item_name, description, price,
quantity, image_file_name FROM trade_items WHERE id = ?` read with `QueryRow`;
`none` is the result `nil, nil` (no such row). The columns `buyers` and
`group_id` are not selected. -/
def getTradeItemByID (db : DB) (tradeItemID : Int) : Option TradeItem :=
  (db.trade_items.find? (fun t => (t.id : Int) == tradeItemID)).map
    (fun t => { id := t.id, seller := t.seller, buyers := "", group_id := "",
                item_name := t.item_name, description := t.description, price := t.price,
                quantity := t.quantity, image_file_name := t.image_file_name })

/-- The text `fmt.Sprintf("开始交易%d号，名称：%s，价格：%.2f，描述：%s", tradeItem.ID,
tradeItem.ItemName, tradeItem.Price, tradeItem.Description)`. -/
def startTradeText (item : TradeItem) : String :=
  "开始交易" ++ toString item.id ++ "号，名称：" ++ item.item_name ++ "，价格：" ++
    Sprintf2f item.price ++ "，描述：" ++ item.description

/-- Function `handleSpecificTradeItem`. `Sscanf` stands for
`fmt.Sscanf(msg.Content, "交易%d号", &tradeID)`: the id read, `none` when `err` is
not `nil`. -/
def handleSpecificTradeItem (Sscanf : String → Option Int) (db : DB) (content : String) :
    List Out :=
  match Sscanf content with
  | none => [.ReplyText "指令格式错误，请按照 \x27交易[交易品ID]号\x27 的格式输入。"]
  | some tradeID =>
    match getTradeItemByID db tradeID with
    | none => [.ReplyText "未找到指定的交易品。"]
    | some tradeItem =>
      [Out.ReplyText (startTradeText tradeItem)] ++
        (if tradeItem.image_file_name ≠ "" then [Out.sendPicture tradeItem.image_file_name]
         else []) ++
        [Out.ReplyText "扫描上面二维码进群，复制上面的话到群中进行下一步交易"]

/-! ## Sequences of ledger operations -/

/-- One call of a ledger function. The functions that only `SELECT`
(`getUserTradeItems`, `getAvailableTradeItems`, `getTradeItemByID`,
`getPendingTradeItem`) leave the ledger as it is, like `getRechargeCodeByAmount`. -/
inductive Op where
  | insertRechargeRecord (amount : Float64) (rechargeCode : String)
  | getRechargeCodeByAmount (amount : Float64)
  | redeemRechargeCode (code : String)
  | processRechargeCode (groupID : String) (rechargeCode : Int) (buyerNickname : String)
  | insertTradeItem (seller itemName description : String) (price : Float64) (quantity : Int)
  | bindTradeItemToGroup (tradeItemID : Int) (groupID : String)
  | updateTradeItemImage (tradeItemID : Int) (fileName : String)

/-- The ledger after one operation. -/
def Op.apply (db : DB) : Op → DB
  | .insertRechargeRecord a c => (Wxbox.insertRechargeRecord db a c).2
  | .getRechargeCodeByAmount _ => db
  | .redeemRechargeCode c => (Wxbox.redeemRechargeCode db c).2
  | .processRechargeCode g c b => (Wxbox.processRechargeCode db g c b).2
  | .insertTradeItem s n d p q => (Wxbox.insertTradeItem db s n d p q).2
  | .bindTradeItemToGroup i g => (Wxbox.bindTradeItemToGroup db i g).2
  | .updateTradeItemImage i f => (Wxbox.updateTradeItemImage db i f).2

/-- The ledger after a sequence of operations, run one after another. -/
def run (db : DB) (ops : List Op) : DB := ops.foldl Op.apply db

/-- The `UNIQUE` constraint on `recharge_code`: no two rows share a code. -/
def UniqueCodes (db : DB) : Prop :=
  db.recharge_records.Pairwise (fun a b => a.recharge_code ≠ b.recharge_code)

instance instDecidableUniqueCodes (db : DB) : Decidable (UniqueCodes db) := by
  unfold UniqueCodes; infer_instance

/-- The used flag of code `c` is set: a row with the code has `used != 0`. -/
def codeUsed (db : DB) (c : String) : Prop :=
  ∃ r ∈ db.recharge_records, r.recharge_code = c ∧ r.used ≠ 0

instance instDecidableCodeUsed (db : DB) (c : String) : Decidable (codeUsed db c) := by
  unfold codeUsed; infer_instance

/-! ## Calls of `redeemRechargeCode` that overlap -/

/-- Where one call of `redeemRechargeCode` stands: before its `SELECT`, between
the `SELECT` (which found the code unused, with this amount) and the `UPDATE`,
or returned. -/
inductive Call where
  | start
  | selected (amount : Num)
  | returned (result : Except Err Num)
deriving DecidableEq, Repr

/-- The next statement of a call `redeemRechargeCode(db, code)`: from `start`
the `SELECT amount, used` and the tests on its result, from `selected` the
`UPDATE ... SET used = 1` and the return of the amount. Each statement runs as
a whole on the ledger of the moment. -/
def redeemStatement (db : DB) (code : String) : Call → Call × DB
  | .start =>
    match db.recharge_records.find? (fun r => r.recharge_code == code) with
    | none => (.returned (.error .codeNotFound), db)
    | some r =>
      if r.used ≠ 0 then (.returned (.error .codeAlreadyUsed), db)
      else (.selected r.amount, db)
  | .selected amount =>
    (.returned (.ok amount),
     { db with recharge_records := markUsed db.recharge_records code })
  | .returned result => (.returned result, db)

/-- Several calls on the same code under a schedule: each entry of the
schedule is the number of the call that runs its next statement. -/
def interleave (code : String) : List Nat → DB × List Call → DB × List Call
  | [], st => st
  | i :: schedule, (db, calls) =>
    match calls.get? i with
    | none => interleave code schedule (db, calls)
    | some c =>
      interleave code schedule
        ((redeemStatement db code c).2, calls.set i (redeemStatement db code c).1)

/-- The results of `n` calls `redeemRechargeCode(db, code)` run one after
another, and the ledger they leave. -/
def redeemTimes (code : String) : Nat → DB → List (Except Err Num) × DB
  | 0, db => ([], db)
  | n + 1, db =>
    ((redeemRechargeCode db code).1 :: (redeemTimes code n (redeemRechargeCode db code).2).1,
     (redeemTimes code n (redeemRechargeCode db code).2).2)

/-! ## Concrete ledgers used at the worked inputs -/

/-- One unused code `"5"` worth 5, one item (price 10, quantity 1) bound to group `"g"`. -/
def dbMismatch : DB :=
  { recharge_records := [{ id := 1, amount := .fin 5, recharge_code := "5", used := 0 }],
    trade_items := [{ id := 1, seller := "s", buyers := "", group_id := "g", item_name := "n",
                      description := "", price := .fin 10, quantity := 1,
                      image_file_name := "" }] }

/-- One unused code `"5"` worth 10, one sold-out item (price 10, quantity 0) bound to `"g"`. -/
def dbSoldOut : DB :=
  { recharge_records := [{ id := 1, amount := .fin 10, recharge_code := "5", used := 0 }],
    trade_items := [{ id := 1, seller := "s", buyers := "", group_id := "g", item_name := "n",
                      description := "", price := .fin 10, quantity := 0,
                      image_file_name := "" }] }

/-- One item of seller `"老王"` (price 50, quantity 1 left) with one buyer recorded. -/
def dbOneSold : DB :=
  { recharge_records := [],
    trade_items := [{ id := 3, seller := "老王", buyers := "bob|", group_id := "g",
                      item_name := "手办", description := "限量版", price := .fin 50,
                      quantity := 1, image_file_name := "" }] }

/-- The item of `dbOneSold`. -/
def itemSold : TradeItem :=
  { id := 3, seller := "老王", buyers := "bob|", group_id := "g", item_name := "手办",
    description := "限量版", price := .fin 50, quantity := 1, image_file_name := "" }

/-- One unused code `"111"` worth 5 and no item. -/
def dbOneCode : DB :=
  { recharge_records := [{ id := 1, amount := .fin 5, recharge_code := "111", used := 0 }],
    trade_items := [] }

/-! ## Lemmas on the recharge table -/

theorem find_code_none (rs : List RechargeRecord) (c : String)
    (h : ∀ r ∈ rs, r.recharge_code ≠ c) :
    rs.find? (fun r => r.recharge_code == c) = none := by
  rw [List.find?_eq_none]
  intro r hr
  simpa using h r hr

theorem find_code_unique (rs : List RechargeRecord) (c : String) (r : RechargeRecord)
    (hu : rs.Pairwise (fun a b => a.recharge_code ≠ b.recharge_code))
    (hr : r ∈ rs) (hc : r.recharge_code = c) :
    rs.find? (fun x => x.recharge_code == c) = some r := by
  induction rs with
  | nil => simp at hr
  | cons x xs ih =>
    rw [List.pairwise_cons] at hu
    rcases List.mem_cons.mp hr with rfl | hmem
    · simp [List.find?, hc]
    · have hx : x.recharge_code ≠ c := by
        rw [← hc]; exact hu.1 r hmem
      have hb : (x.recharge_code == c) = false := by simpa using hx
      simp only [List.find?, hb]
      exact ih hu.2 hmem

theorem code_eq_of_unique (rs : List RechargeRecord) (r x : RechargeRecord)
    (hu : rs.Pairwise (fun a b => a.recharge_code ≠ b.recharge_code))
    (hr : r ∈ rs) (hx : x ∈ rs) (hc : x.recharge_code = r.recharge_code) : x = r := by
  induction rs with
  | nil => simp at hr
  | cons y ys ih =>
    rw [List.pairwise_cons] at hu
    rcases List.mem_cons.mp hr with rfl | hr'
    · rcases List.mem_cons.mp hx with rfl | hx'
      · rfl
      · exact absurd hc.symm (hu.1 x hx')
    · rcases List.mem_cons.mp hx with rfl | hx'
      · exact absurd hc (hu.1 r hr')
      · exact ih hu.2 hr' hx'

theorem markUsed_codes (rs : List RechargeRecord) (c : String) :
    (markUsed rs c).map (·.recharge_code) = rs.map (·.recharge_code) := by
  unfold markUsed
  rw [List.map_map]
  apply List.map_congr_left
  intro r _
  by_cases h : r.recharge_code = c <;> simp [h]

theorem uniqueCodes_iff (rs : List RechargeRecord) :
    rs.Pairwise (fun a b => a.recharge_code ≠ b.recharge_code) ↔
      (rs.map (·.recharge_code)).Nodup := by
  unfold List.Nodup
  rw [List.pairwise_map]

theorem markUsed_unique (rs : List RechargeRecord) (c : String)
    (hu : rs.Pairwise (fun a b => a.recharge_code ≠ b.recharge_code)) :
    (markUsed rs c).Pairwise (fun a b => a.recharge_code ≠ b.recharge_code) := by
  rw [uniqueCodes_iff] at hu ⊢
  rw [markUsed_codes]; exact hu

theorem markUsed_eq_replace (rs : List RechargeRecord) (r : RechargeRecord)
    (hu : rs.Pairwise (fun a b => a.recharge_code ≠ b.recharge_code)) (hr : r ∈ rs) :
    markUsed rs r.recharge_code = rs.map (fun x => if x = r then { r with used := 1 } else x) := by
  unfold markUsed
  apply List.map_congr_left
  intro x hx
  by_cases h : x.recharge_code = r.recharge_code
  · have := code_eq_of_unique rs r x hu hr hx h
    subst this
    simp
  · have hne : x ≠ r := fun e => h (by rw [e])
    simp [h, hne]

/-! ## Redemption (C1) -/

/-- C1. `redeemRechargeCode` on a ledger whose codes are unique (the `UNIQUE`
constraint): with no record of code `c` it fails with the not-found error and
changes nothing; with the record of `c` used it fails with the already-used
error and changes nothing; otherwise it returns the stored amount, and the
ledger is the old one with that one record's `used` set to 1. -/
theorem redeemRechargeCode_spec (db : DB) (c : String) (hu : UniqueCodes db) :
    ((∀ r ∈ db.recharge_records, r.recharge_code ≠ c) →
        redeemRechargeCode db c = (.error .codeNotFound, db)) ∧
    (∀ r ∈ db.recharge_records, r.recharge_code = c → r.used ≠ 0 →
        redeemRechargeCode db c = (.error .codeAlreadyUsed, db)) ∧
    (∀ r ∈ db.recharge_records, r.recharge_code = c → r.used = 0 →
        redeemRechargeCode db c =
          (.ok r.amount,
           { recharge_records :=
               db.recharge_records.map (fun x => if x = r then { r with used := 1 } else x),
             trade_items := db.trade_items })) := by
  refine ⟨?_, ?_, ?_⟩
  · intro h
    simp [redeemRechargeCode, find_code_none _ _ h]
  · intro r hr hc hused
    simp [redeemRechargeCode, find_code_unique _ _ r hu hr hc, hused]
  · intro r hr hc hused
    subst hc
    simp [redeemRechargeCode, find_code_unique _ _ r hu hr rfl, hused,
      markUsed_eq_replace _ r hu hr]

/-- Witness of C1 on the ledger `dbMismatch`, code `"5"`. -/
theorem redeemRechargeCode_spec_witness :
    UniqueCodes dbMismatch ∧
    redeemRechargeCode dbMismatch "5" =
      (.ok (.fin 5),
       { recharge_records := [{ id := 1, amount := .fin 5, recharge_code := "5", used := 1 }],
         trade_items := dbMismatch.trade_items }) :=
  ⟨by decide,
   (redeemRechargeCode_spec dbMismatch "5" (by decide)).2.2
     { id := 1, amount := .fin 5, recharge_code := "5", used := 0 } (by decide) rfl rfl⟩

/-! ## The used flag is terminal (C2) -/

theorem markUsed_mem_used (rs : List RechargeRecord) (c c' : String) (r : RechargeRecord)
    (hr : r ∈ rs) (hc : r.recharge_code = c) (hused : r.used ≠ 0) :
    ∃ r' ∈ markUsed rs c', r'.recharge_code = c ∧ r'.used ≠ 0 := by
  by_cases h : r.recharge_code = c'
  · refine ⟨{ r with used := 1 }, ?_, hc, by simp⟩
    unfold markUsed
    exact List.mem_map.mpr ⟨r, hr, by simp [h]⟩
  · refine ⟨r, ?_, hc, hused⟩
    unfold markUsed
    exact List.mem_map.mpr ⟨r, hr, by simp [h]⟩

theorem insertRechargeRecord_records (db : DB) (a : Float64) (c : String) :
    (insertRechargeRecord db a c).2.recharge_records = db.recharge_records ∨
    ((∀ r ∈ db.recharge_records, r.recharge_code ≠ c) ∧
      ∃ r, r.recharge_code = c ∧ r.used = 0 ∧ a = some r.amount ∧
        (insertRechargeRecord db a c).2.recharge_records = db.recharge_records ++ [r]) := by
  unfold insertRechargeRecord
  cases a with
  | none => exact Or.inl rfl
  | some v =>
    dsimp only
    by_cases h : db.recharge_records.any (fun r => r.recharge_code == c) = true
    · rw [if_pos h]; exact Or.inl rfl
    · right
      rw [if_neg h]
      refine ⟨?_, ⟨_, rfl, rfl, rfl, rfl⟩⟩
      intro r hr hc
      apply h
      rw [List.any_eq_true]
      exact ⟨r, hr, by simpa using hc⟩

theorem redeemRechargeCode_records (db : DB) (c : String) :
    (redeemRechargeCode db c).2.trade_items = db.trade_items ∧
    ((redeemRechargeCode db c).2.recharge_records = db.recharge_records ∨
     (redeemRechargeCode db c).2.recharge_records = markUsed db.recharge_records c) := by
  unfold redeemRechargeCode
  cases db.recharge_records.find? (fun r => r.recharge_code == c) with
  | none => exact ⟨rfl, Or.inl rfl⟩
  | some r =>
    dsimp only
    by_cases h : r.used ≠ 0
    · rw [if_pos h]; exact ⟨rfl, Or.inl rfl⟩
    · rw [if_neg h]; exact ⟨rfl, Or.inr rfl⟩

theorem processRechargeCode_records (db : DB) (g : String) (code : Int) (b : String) :
    (processRechargeCode db g code b).2.recharge_records = db.recharge_records ∨
    (processRechargeCode db g code b).2.recharge_records =
      markUsed db.recharge_records (toString code) := by
  unfold processRechargeCode
  cases db.recharge_records.find?
      (fun r => r.recharge_code == toString code && r.used == 0) with
  | none => exact Or.inl rfl
  | some r =>
    cases boundItem db g with
    | none => exact Or.inl rfl
    | some t =>
      dsimp only
      by_cases h : r.amount ≠ t.price
      · rw [if_pos h]; exact Or.inl rfl
      · rw [if_neg h]; exact Or.inr rfl

/-- Every operation changes `recharge_records` in one of three ways: not at
all, by setting `used = 1` on the rows of one code, or by appending an unused
row whose code is new. -/
theorem apply_records (db : DB) (op : Op) :
    (op.apply db).recharge_records = db.recharge_records ∨
    (∃ c, (op.apply db).recharge_records = markUsed db.recharge_records c) ∨
    (∃ r, (∀ x ∈ db.recharge_records, x.recharge_code ≠ r.recharge_code) ∧ r.used = 0 ∧
      (op.apply db).recharge_records = db.recharge_records ++ [r]) := by
  cases op with
  | insertRechargeRecord a c =>
    rcases insertRechargeRecord_records db a c with h | ⟨hf, r, hc, h0, _, h⟩
    · exact Or.inl h
    · exact Or.inr (Or.inr ⟨r, by rw [hc]; exact hf, h0, h⟩)
  | getRechargeCodeByAmount a => exact Or.inl rfl
  | redeemRechargeCode c =>
    rcases (redeemRechargeCode_records db c).2 with h | h
    · exact Or.inl h
    · exact Or.inr (Or.inl ⟨c, h⟩)
  | processRechargeCode g c b =>
    rcases processRechargeCode_records db g c b with h | h
    · exact Or.inl h
    · exact Or.inr (Or.inl ⟨_, h⟩)
  | insertTradeItem s n d p q =>
    left
    show (insertTradeItem db s n d p q).2.recharge_records = _
    unfold insertTradeItem
    cases p <;> rfl
  | bindTradeItemToGroup i g => exact Or.inl rfl
  | updateTradeItemImage i f => exact Or.inl rfl

theorem apply_uniqueCodes (db : DB) (op : Op) (hu : UniqueCodes db) :
    UniqueCodes (op.apply db) := by
  unfold UniqueCodes at hu ⊢
  rcases apply_records db op with h | ⟨c, h⟩ | ⟨r, hf, _, h⟩
  · rw [h]; exact hu
  · rw [h]; exact markUsed_unique _ _ hu
  · rw [h, List.pairwise_append]
    refine ⟨hu, List.pairwise_singleton _ _, ?_⟩
    intro x hx y hy
    rw [List.mem_singleton] at hy
    subst hy
    exact hf x hx

theorem apply_codeUsed (db : DB) (op : Op) (c : String) (h : codeUsed db c) :
    codeUsed (op.apply db) c := by
  obtain ⟨r, hr, hc, hused⟩ := h
  unfold codeUsed
  rcases apply_records db op with h | ⟨c', h⟩ | ⟨r', _, _, h⟩
  · rw [h]; exact ⟨r, hr, hc, hused⟩
  · rw [h]; exact markUsed_mem_used _ c c' r hr hc hused
  · rw [h]; exact ⟨r, List.mem_append_left _ hr, hc, hused⟩

theorem run_uniqueCodes (ops : List Op) (db : DB) (hu : UniqueCodes db) :
    UniqueCodes (run db ops) := by
  induction ops generalizing db with
  | nil => exact hu
  | cons op ops ih => exact ih (op.apply db) (apply_uniqueCodes db op hu)

theorem run_codeUsed (ops : List Op) (db : DB) (c : String) (h : codeUsed db c) :
    codeUsed (run db ops) c := by
  induction ops generalizing db with
  | nil => exact h
  | cons op ops ih => exact ih (op.apply db) (apply_codeUsed db op c h)

theorem redeem_of_codeUsed (db : DB) (c : String) (hu : UniqueCodes db) (h : codeUsed db c) :
    redeemRechargeCode db c = (.error .codeAlreadyUsed, db) := by
  obtain ⟨r, hr, hc, hused⟩ := h
  simp [redeemRechargeCode, find_code_unique _ _ r hu hr hc, hused]

theorem redeem_ok_state (db db1 : DB) (c : String) (a : Num)
    (h : redeemRechargeCode db c = (.ok a, db1)) :
    codeUsed db1 c ∧ db1.recharge_records = markUsed db.recharge_records c := by
  unfold redeemRechargeCode at h
  cases hf : db.recharge_records.find? (fun r => r.recharge_code == c) with
  | none => rw [hf] at h; simp at h
  | some r =>
    rw [hf] at h
    by_cases hused : r.used ≠ 0
    · simp [hused] at h
    · dsimp only at h
      rw [if_neg hused] at h
      simp only [Prod.mk.injEq] at h
      have hdb := h.2
      subst hdb
      refine ⟨?_, rfl⟩
      have hmem := List.mem_of_find?_eq_some hf
      have hcode : r.recharge_code = c := by simpa using List.find?_some hf
      refine ⟨{ r with used := 1 }, ?_, hcode, by simp⟩
      show _ ∈ markUsed db.recharge_records c
      unfold markUsed
      exact List.mem_map.mpr ⟨r, hmem, by simp [hcode]⟩

/-- C2. On a ledger with unique codes and for every sequence `ops` of ledger
operations: a code whose used flag is set has it set in the state after `ops`,
where redeeming it fails as already used; and after a successful redeem of `c`
the flag of `c` is set in every later state and every later redeem of `c`
fails as already used, so that no code is redeemed twice. -/
theorem used_flag_terminal (db : DB) (c : String) (ops : List Op) (hu : UniqueCodes db) :
    (codeUsed db c →
      codeUsed (run db ops) c ∧
      redeemRechargeCode (run db ops) c = (.error .codeAlreadyUsed, run db ops)) ∧
    (∀ a db1, redeemRechargeCode db c = (.ok a, db1) →
      codeUsed (run db1 ops) c ∧
      redeemRechargeCode (run db1 ops) c = (.error .codeAlreadyUsed, run db1 ops)) := by
  constructor
  · intro h
    exact ⟨run_codeUsed ops db c h,
      redeem_of_codeUsed _ c (run_uniqueCodes ops db hu) (run_codeUsed ops db c h)⟩
  · intro a db1 h
    obtain ⟨hused, hrec⟩ := redeem_ok_state db db1 c a h
    have hu1 : UniqueCodes db1 := by
      unfold UniqueCodes at hu ⊢
      rw [hrec]; exact markUsed_unique _ _ hu
    exact ⟨run_codeUsed ops db1 c hused,
      redeem_of_codeUsed _ c (run_uniqueCodes ops db1 hu1) (run_codeUsed ops db1 c hused)⟩

/-- Witness of C2: code `"5"` of `dbMismatch` is redeemed, then a new code is
issued, a settlement is tried and `"5"` is redeemed again. -/
theorem used_flag_terminal_witness :
    UniqueCodes dbMismatch ∧
    redeemRechargeCode
      (run (redeemRechargeCode dbMismatch "5").2
        [.insertRechargeRecord (some (.fin 5)) "6", .processRechargeCode "g" 5 "bob",
         .redeemRechargeCode "5", .bindTradeItemToGroup 1 "h"]) "5" =
      (.error .codeAlreadyUsed,
       run (redeemRechargeCode dbMismatch "5").2
        [.insertRechargeRecord (some (.fin 5)) "6", .processRechargeCode "g" 5 "bob",
         .redeemRechargeCode "5", .bindTradeItemToGroup 1 "h"]) :=
  ⟨by decide,
   ((used_flag_terminal dbMismatch "5" _ (by decide)).2 (.fin 5)
      (redeemRechargeCode dbMismatch "5").2 (by decide)).2⟩

/-! ## Settlement of a group trade (C3, C4, C5) -/

theorem find_unused_unique (rs : List RechargeRecord) (c : String) (r : RechargeRecord)
    (hu : rs.Pairwise (fun a b => a.recharge_code ≠ b.recharge_code))
    (hr : r ∈ rs) (hc : r.recharge_code = c) (h0 : r.used = 0) :
    rs.find? (fun x => x.recharge_code == c && x.used == 0) = some r := by
  induction rs with
  | nil => simp at hr
  | cons x xs ih =>
    rw [List.pairwise_cons] at hu
    rcases List.mem_cons.mp hr with rfl | hmem
    · simp [List.find?, hc, h0]
    · have hx : x.recharge_code ≠ c := by
        rw [← hc]; exact hu.1 r hmem
      have hb : (x.recharge_code == c && x.used == 0) = false := by simp [hx]
      simp only [List.find?, hb]
      exact ih hu.2 hmem

/-- C3. On a ledger with unique codes, when the record `r` of the code is
unused, `t` is the item bound to the group and the amount of `r` is not the
price of `t`, `processRechargeCode` leaves the ledger as it was: no flag, no
quantity and no buyers field is changed. -/
theorem processRechargeCode_mismatch_unchanged (db : DB) (groupID : String)
    (rechargeCode : Int) (buyerNickname : String) (r : RechargeRecord) (t : TradeItem)
    (hu : UniqueCodes db) (hr : r ∈ db.recharge_records)
    (hc : r.recharge_code = toString rechargeCode) (h0 : r.used = 0)
    (ht : boundItem db groupID = some t) (hne : r.amount ≠ t.price) :
    (processRechargeCode db groupID rechargeCode buyerNickname).2 = db := by
  unfold processRechargeCode
  rw [find_unused_unique _ _ r hu hr hc h0, ht]
  dsimp only
  rw [if_pos hne]

/-- Witness of C3: code `5` (worth 5) against the item of price 10 in `dbMismatch`. -/
theorem processRechargeCode_mismatch_unchanged_witness :
    UniqueCodes dbMismatch ∧ (processRechargeCode dbMismatch "g" 5 "bob").2 = dbMismatch :=
  ⟨by decide,
   processRechargeCode_mismatch_unchanged dbMismatch "g" 5 "bob"
     { id := 1, amount := .fin 5, recharge_code := "5", used := 0 }
     { id := 1, seller := "s", buyers := "", group_id := "g", item_name := "n",
       description := "", price := .fin 10, quantity := 1, image_file_name := "" }
     (by decide) (by decide) (by decide) rfl (by decide) (by decide)⟩

/-- C4, the code at the failing input: with code `5` worth 5 and the bound item
priced 10, `processRechargeCode` returns `nil` (`none`), not an error. -/
theorem processRechargeCode_mismatch_returns_nil :
    (processRechargeCode dbMismatch "g" 5 "bob").1 = none := by
  decide

/-- C5, the code at the failing input: with code `5` worth 10 and the bound
item priced 10 but sold out (quantity 0), `processRechargeCode` returns `nil`,
marks the code used and leaves the item as it was. -/
theorem processRechargeCode_soldOut_consumes_code :
    processRechargeCode dbSoldOut "g" 5 "bob" =
      (none,
       { recharge_records := [{ id := 1, amount := .fin 10, recharge_code := "5", used := 1 }],
         trade_items := dbSoldOut.trade_items }) := by
  decide

/-! ## Issue, lookup, redeem (C10) -/

theorem find_amount_append_new (rs : List RechargeRecord) (a : Num) (r : RechargeRecord)
    (hfirst : ∀ x ∈ rs, x.used = 0 → x.amount ≠ a) (hra : r.amount = a) (hr0 : r.used = 0) :
    (rs ++ [r]).find? (fun x => some x.amount == some a && x.used == 0) = some r := by
  rw [List.find?_append]
  have hnone : rs.find? (fun x => some x.amount == some a && x.used == 0) = none := by
    rw [List.find?_eq_none]
    intro x hx
    by_cases h0 : x.used = 0
    · simp [hfirst x hx h0]
    · simp [h0]
  rw [hnone]
  simp [List.find?, hra, hr0]

theorem find_unused_markUsed (rs : List RechargeRecord) (c : String) (a : Float64)
    (x : RechargeRecord)
    (h : (markUsed rs c).find? (fun r => some r.amount == a && r.used == 0) = some x) :
    x.recharge_code ≠ c := by
  have hmem := List.mem_of_find?_eq_some h
  have hp := List.find?_some h
  unfold markUsed at hmem
  obtain ⟨y, _, hy⟩ := List.mem_map.mp hmem
  intro hc
  by_cases hyc : y.recharge_code = c
  · rw [if_pos hyc] at hy
    subst hy
    simp at hp
  · rw [if_neg hyc] at hy
    subst hy
    exact hyc hc

theorem insertRechargeRecord_fresh (db : DB) (a : Num) (c : String)
    (hfresh : ∀ r ∈ db.recharge_records, r.recharge_code ≠ c) :
    ∃ r0 : RechargeRecord, r0.amount = a ∧ r0.recharge_code = c ∧ r0.used = 0 ∧
      insertRechargeRecord db (some a) c =
        (none, { recharge_records := db.recharge_records ++ [r0],
                 trade_items := db.trade_items }) := by
  have hany : db.recharge_records.any (fun r => r.recharge_code == c) = false := by
    rw [List.any_eq_false]
    intro r hr
    simpa using hfresh r hr
  refine ⟨{ id := nextId (db.recharge_records.map (·.id)), amount := a,
            recharge_code := c, used := 0 }, rfl, rfl, rfl, ?_⟩
  simp only [insertRechargeRecord, hany]
  rfl

/-- C10 as amended. For every ledger, every amount `a` (any `float64` but NaN,
so every `a > 0`) and every code `c` not yet in the ledger: issuing `(a, c)`
succeeds and appends the unused record `(a, c)` to the table; the lookup by `a`
then returns the code of the first unused record of amount `a` in the table
(the table is `pre ++ r :: post` with no unused record of amount `a` in `pre`,
`r` unused of amount `a`, and the code of `r` is returned), which is `c` when
the ledger held no unused record of amount `a` before; redeeming `c` then
succeeds with amount `a`, and after it no lookup, by any amount, returns `c`. -/
theorem issue_lookup_redeem (db : DB) (a : Num) (c : String)
    (hfresh : ∀ r ∈ db.recharge_records, r.recharge_code ≠ c) :
    ∃ db1, insertRechargeRecord db (some a) c = (none, db1) ∧
      ((∀ r ∈ db.recharge_records, r.used = 0 → r.amount ≠ a) →
        getRechargeCodeByAmount db1 (some a) = .ok c) ∧
      (db1.trade_items = db.trade_items ∧
        ∃ r0, db1.recharge_records = db.recharge_records ++ [r0] ∧
          r0.amount = a ∧ r0.recharge_code = c ∧ r0.used = 0) ∧
      (∃ pre r post, db1.recharge_records = pre ++ r :: post ∧
        (∀ x ∈ pre, ¬ (x.used = 0 ∧ x.amount = a)) ∧ r.used = 0 ∧ r.amount = a ∧
        getRechargeCodeByAmount db1 (some a) = .ok r.recharge_code) ∧
      ∃ db2, redeemRechargeCode db1 c = (.ok a, db2) ∧
        ∀ a', getRechargeCodeByAmount db2 a' ≠ .ok c := by
  obtain ⟨r0, hra, hrc, hr0, hins⟩ := insertRechargeRecord_fresh db a c hfresh
  refine ⟨_, hins, ?_, ⟨rfl, r0, rfl, hra, hrc, hr0⟩, ?_, ?_⟩
  · intro hfirst
    simp only [getRechargeCodeByAmount]
    rw [find_amount_append_new db.recharge_records a r0 hfirst hra hr0]
    dsimp only
    rw [hrc]
  · simp only [getRechargeCodeByAmount]
    cases hf : (db.recharge_records ++ [r0]).find?
        (fun r => some r.amount == some a && r.used == 0) with
    | none =>
      rw [List.find?_eq_none] at hf
      have := hf r0 (List.mem_append_right _ (List.mem_singleton.mpr rfl))
      simp [hra, hr0] at this
    | some x =>
      obtain ⟨hp, pre, post, hsplit, hpre⟩ := List.find?_eq_some.mp hf
      simp only [Bool.and_eq_true, beq_iff_eq, Option.some.injEq] at hp
      refine ⟨pre, x, post, hsplit, ?_, hp.2, hp.1, rfl⟩
      intro y hy hcontra
      have := hpre y hy
      simp [hcontra.1, hcontra.2] at this
  · have hfind : (db.recharge_records ++ [r0]).find? (fun r => r.recharge_code == c) =
        some r0 := by
      rw [List.find?_append, find_code_none _ _ hfresh]
      simp [List.find?, hrc]
    have hz : ¬ r0.used ≠ 0 := by simp [hr0]
    refine ⟨{ recharge_records := markUsed (db.recharge_records ++ [r0]) c,
              trade_items := db.trade_items }, ?_, ?_⟩
    · simp only [redeemRechargeCode, hfind]
      rw [if_neg hz, hra]
    · intro a' hget
      simp only [getRechargeCodeByAmount] at hget
      cases hf : (markUsed (db.recharge_records ++ [r0]) c).find?
          (fun r => some r.amount == a' && r.used == 0) with
      | none => rw [hf] at hget; simp at hget
      | some x =>
        rw [hf] at hget
        have hne := find_unused_markUsed _ c a' x hf
        simp only [Except.ok.injEq] at hget
        exact hne hget

/-- Witness of C10 as amended: code `"222"` worth 5 issued on the empty ledger
is the code the lookup returns. -/
theorem issue_lookup_redeem_witness :
    (∀ r ∈ ({ recharge_records := [], trade_items := [] } : DB).recharge_records,
        r.recharge_code ≠ "222") ∧
    ∃ db1, insertRechargeRecord { recharge_records := [], trade_items := [] }
        (some (.fin 5)) "222" = (none, db1) ∧
      getRechargeCodeByAmount db1 (some (.fin 5)) = .ok "222" := by
  refine ⟨by decide, ?_⟩
  obtain ⟨db1, h1, h2, _⟩ :=
    issue_lookup_redeem { recharge_records := [], trade_items := [] } (.fin 5) "222" (by decide)
  exact ⟨db1, h1, h2 (by decide)⟩

/-- C10 as stated fails: on a ledger that already holds the unused code `"111"`
worth 5, issuing the new code `"222"` for the amount 5 (which is positive)
succeeds, and the lookup by 5 returns `"111"`, not `"222"`. -/
theorem issue_lookup_returns_older_code :
    (∀ r ∈ dbOneCode.recharge_records, r.recharge_code ≠ "222") ∧
    Num.pos (.fin 5) = true ∧
    (insertRechargeRecord dbOneCode (some (.fin 5)) "222").1 = none ∧
    getRechargeCodeByAmount (insertRechargeRecord dbOneCode (some (.fin 5)) "222").2
      (some (.fin 5)) = .ok "111" ∧
    getRechargeCodeByAmount (insertRechargeRecord dbOneCode (some (.fin 5)) "222").2
      (some (.fin 5)) ≠ .ok "222" := by
  decide

/-! ## Dispatch of the commands that begin with 交易 (C8, C9) -/

theorem hasPrefix_iff (s p : String) : HasPrefix s p = true ↔ ∃ t, s.data = p.data ++ t := by
  unfold HasPrefix
  rw [List.isPrefixOf_iff_prefix]
  constructor
  · rintro ⟨t, ht⟩; exact ⟨t, ht.symm⟩
  · rintro ⟨t, ht⟩; exact ⟨t, ht.symm⟩

theorem dropLit_some (l cs r : List Char) (h : dropLit l cs = some r) : cs = l ++ r := by
  induction l generalizing cs with
  | nil => simp [dropLit] at h; simp [h]
  | cons a l ih =>
    cases cs with
    | nil => simp [dropLit] at h
    | cons c cs =>
      by_cases hac : a = c
      · subst hac
        simp only [dropLit, if_true] at h
        rw [ih cs h]; rfl
      · simp [dropLit, hac] at h

theorem dropLit_none_of_head (a c : Char) (l cs : List Char) (h : a ≠ c) :
    dropLit (a :: l) (c :: cs) = none := by
  simp [dropLit, h]

theorem hasPrefix_zone (content : String) (h : HasPrefix content "交易区" = true) :
    HasPrefix content "交易" = true := by
  rw [hasPrefix_iff] at h ⊢
  obtain ⟨t, ht⟩ := h
  exact ⟨'区' :: t, by rw [ht]; rfl⟩

theorem hasPrefix_tradeDigits (content : String) (h : matchTradeDigits content.data = true) :
    HasPrefix content "交易" = true := by
  unfold matchTradeDigits at h
  rw [hasPrefix_iff]
  cases hd : dropLit "交易".data content.data with
  | none => rw [hd] at h; simp at h
  | some r => exact ⟨r, dropLit_some _ _ _ hd⟩

theorem createTradeItem_out (ParseFloat : String → Option Float64) (db : DB)
    (s n p : String) (q : Option String) (d : String) :
    ∃ t, (createTradeItem ParseFloat db s n p q d).1 = [.ReplyText t] := by
  unfold createTradeItem
  cases ParseFloat p with
  | none => exact ⟨_, rfl⟩
  | some price =>
    dsimp only
    rcases quantityOf q with ⟨k, ok⟩
    cases ok with
    | false => exact ⟨_, rfl⟩
    | true =>
      cases price with
      | none => exact ⟨_, rfl⟩
      | some v => exact ⟨_, rfl⟩

theorem privateSwitch_out (ParseFloat : String → Option Float64) (db : DB)
    (nick content : String) :
    (∃ t, (privateSwitch ParseFloat db nick content).1 = [.ReplyText t]) ∨
    (privateSwitch ParseFloat db nick content).1 = [.handleMyTradeItems nick] ∨
    (privateSwitch ParseFloat db nick content).1 = [] := by
  unfold privateSwitch
  by_cases h : HasPrefix content "交易" = true
  · rw [if_pos h]
    left
    split
    · exact createTradeItem_out ..
    · exact createTradeItem_out ..
    · exact createTradeItem_out ..
    · exact ⟨_, rfl⟩
  · rw [if_neg h]
    have hz : ¬ HasPrefix content "交易区" = true := fun hz => h (hasPrefix_zone _ hz)
    have hd : ¬ matchTradeDigits content.data = true := fun hd => h (hasPrefix_tradeDigits _ hd)
    rw [if_neg hz, if_neg hd]
    by_cases hm : HasPrefix content "我的交易品" = true
    · rw [if_pos hm]; exact Or.inr (Or.inl rfl)
    · rw [if_neg hm]; exact Or.inr (Or.inr rfl)

theorem groupSwitch_out (ParseFloat : String → Option Float64) (db : DB)
    (nick content : String) :
    (∃ t, (groupSwitch ParseFloat db nick content).1 = [.ReplyText t]) ∨
    (groupSwitch ParseFloat db nick content).1 = [.handleMyTradeItems nick] ∨
    (groupSwitch ParseFloat db nick content).1 = [] := by
  unfold groupSwitch
  by_cases h : HasPrefix content "交易" = true
  · rw [if_pos h]
    left
    split
    · exact createTradeItem_out ..
    · exact createTradeItem_out ..
    · exact createTradeItem_out ..
    · exact ⟨_, rfl⟩
  · rw [if_neg h]
    have hz : ¬ HasPrefix content "交易区" = true := fun hz => h (hasPrefix_zone _ hz)
    have hd : ¬ matchTradeDigits content.data = true := fun hd => h (hasPrefix_tradeDigits _ hd)
    rw [if_neg hz, if_neg hd]
    by_cases hm : HasPrefix content "我的交易" = true
    · rw [if_pos hm]; exact Or.inr (Or.inl rfl)
    · rw [if_neg hm]; exact Or.inr (Or.inr rfl)

theorem rechargeBlock_out (ParseFloat : String → Option Float64) (db : DB) (content : String) :
    (∃ t, (rechargeBlock ParseFloat db content).1 = [.ReplyText t]) ∨
    (rechargeBlock ParseFloat db content).1 = [] := by
  unfold rechargeBlock
  split
  · split
    · exact Or.inr rfl
    · split
      · exact Or.inl ⟨_, rfl⟩
      · split
        · exact Or.inl ⟨_, rfl⟩
        · exact Or.inl ⟨_, rfl⟩
  · exact Or.inr rfl

theorem handlePrivateMessage_out (ParseFloat : String → Option Float64) (db : DB)
    (nick content : String) :
    ∀ o ∈ (handlePrivateMessage ParseFloat db nick content).1, o.reachable = true := by
  intro o ho
  unfold handlePrivateMessage at ho
  split at ho
  · simp at ho; subst ho; rfl
  · split at ho
    · simp at ho; subst ho; rfl
    · have hhelp : ∀ x ∈ (if content = "帮助" then [Out.ReplyText helpMessage] else []),
          x.reachable = true := by
        intro x hx
        split at hx
        · simp at hx; subst hx; rfl
        · simp at hx
      have hblock : ∀ x ∈ (rechargeBlock ParseFloat db content).1, x.reachable = true := by
        intro x hx
        rcases rechargeBlock_out ParseFloat db content with ⟨t, ht⟩ | ht
        · rw [ht] at hx; simp at hx; subst hx; rfl
        · rw [ht] at hx; simp at hx
      have hswitch : ∀ x ∈ (privateSwitch ParseFloat db nick content).1,
          x.reachable = true := by
        intro x hx
        rcases privateSwitch_out ParseFloat db nick content with ⟨t, ht⟩ | ht | ht
        · rw [ht] at hx; simp at hx; subst hx; rfl
        · rw [ht] at hx; simp at hx; subst hx; rfl
        · rw [ht] at hx; simp at hx
      rcases hb : rechargeBlock ParseFloat db content with ⟨out, ret⟩
      rw [hb] at ho hblock
      cases ret with
      | true =>
        dsimp only at ho
        rcases List.mem_append.mp ho with h1 | h1
        · exact hhelp o h1
        · exact hblock o h1
      | false =>
        dsimp only at ho
        rcases List.mem_append.mp ho with h1 | h1
        · rcases List.mem_append.mp h1 with h2 | h2
          · exact hhelp o h2
          · exact hblock o h2
        · exact hswitch o h1

theorem handleGroupMessage_out (ParseFloat : String → Option Float64) (db : DB)
    (sender : GroupSender) (content : String) :
    ∀ o ∈ (handleGroupMessage ParseFloat db sender content).1, o.reachable = true := by
  intro o ho
  unfold handleGroupMessage at ho
  split at ho
  · unfold bindTradeItemToGroup at ho
    dsimp only at ho
    rcases List.mem_append.mp ho with h1 | h1
    · simp at h1
      rcases h1 with h | h | h <;> subst h <;> rfl
    · split at h1
      · simp at h1
      · simp at h1; subst h1; rfl
  · split at ho
    · split at ho
      · simp at ho
      · split at ho
        · simp at ho
        · split at ho
          · simp at ho; subst ho; rfl
          · simp at ho; subst ho; rfl
    · rcases groupSwitch_out ParseFloat db sender.nick content with ⟨t, ht⟩ | ht | ht
      · rw [ht] at ho; simp at ho; subst ho; rfl
      · rw [ht] at ho; simp at ho; subst ho; rfl
      · rw [ht] at ho; simp at ho

theorem data_of_hasPrefix_trade (content : String) (h : HasPrefix content "交易" = true) :
    ∃ t, content.data = '交' :: '易' :: t := by
  rw [hasPrefix_iff] at h
  obtain ⟨t, ht⟩ := h
  exact ⟨t, ht⟩

theorem ne_of_data_head (content lit : String) (c a : Char) (t l : List Char)
    (hc : content.data = c :: t) (hl : lit.data = a :: l) (hne : c ≠ a) : content ≠ lit := by
  intro h
  rw [h, hl] at hc
  injection hc with h1 _
  exact hne h1.symm

theorem hasPrefix_false_of_head (content lit : String) (c a : Char) (t l : List Char)
    (hc : content.data = c :: t) (hl : lit.data = a :: l) (hne : c ≠ a) :
    ¬ HasPrefix content lit = true := by
  intro h
  rw [hasPrefix_iff] at h
  obtain ⟨u, hu⟩ := h
  rw [hc, hl] at hu
  injection hu with h1 _
  exact hne h1

/-- A private text that begins with 交易 reaches the `switch` with no reply made before. -/
theorem handlePrivateMessage_trade (ParseFloat : String → Option Float64) (db : DB)
    (nick content : String) (h : HasPrefix content "交易" = true) :
    handlePrivateMessage ParseFloat db nick content =
      privateSwitch ParseFloat db nick content := by
  obtain ⟨t, ht⟩ := data_of_hasPrefix_trade content h
  have h1 : content ≠ "价格表" := ne_of_data_head content _ _ '价' _ _ ht rfl (by decide)
  have h2 : content ≠ "我的历史" := ne_of_data_head content _ _ '我' _ _ ht rfl (by decide)
  have h3 : content ≠ "帮助" := ne_of_data_head content _ _ '帮' _ _ ht rfl (by decide)
  have h4 : ¬ HasPrefix content "充值" = true :=
    hasPrefix_false_of_head content _ _ '充' _ _ ht rfl (by decide)
  have h5 : rechargeBlock ParseFloat db content = ([], false) := by
    unfold rechargeBlock
    rw [if_neg h4]
  unfold handlePrivateMessage
  rw [if_neg h1, if_neg h2, if_neg h3, h5]
  rfl

/-- A group text that begins with 交易 matches neither the start-trade nor the
redeem-code pattern and reaches the `switch`. -/
theorem handleGroupMessage_trade (ParseFloat : String → Option Float64) (db : DB)
    (sender : GroupSender) (content : String) (h : HasPrefix content "交易" = true) :
    handleGroupMessage ParseFloat db sender content =
      groupSwitch ParseFloat db sender.nick content := by
  obtain ⟨t, ht⟩ := data_of_hasPrefix_trade content h
  have h1 : matchTradeStart content.data = none := by
    unfold matchTradeStart
    have hl : ("开始交易" : String).data = '开' :: ("始交易" : String).data := rfl
    rw [ht, hl, dropLit_none_of_head _ _ _ _ (by decide)]
  have h2 : matchRedeemCode content.data = none := by
    unfold matchRedeemCode
    have hl : ("兑换码：" : String).data = '兑' :: ("换码：" : String).data := rfl
    rw [ht, hl, dropLit_none_of_head _ _ _ _ (by decide)]
  unfold handleGroupMessage
  rw [h1, h2]

/-- C8, the code at the failing input `交易12号`: in private chat and in a group
the message gets the reply to a create command with missing fields and nothing
else, the ledger being left as it was; and on no text message does either
handler reach `handleSpecificTradeItem`. -/
theorem show_trade_item_shadowed (ParseFloat : String → Option Float64) (db : DB)
    (nick : String) (sender : GroupSender) :
    handlePrivateMessage ParseFloat db nick "交易12号" = ([.ReplyText incompletePrivate], db) ∧
    handleGroupMessage ParseFloat db sender "交易12号" = ([.ReplyText incompleteGroup], db) ∧
    (∀ content, Out.handleSpecificTradeItem ∉
      (handlePrivateMessage ParseFloat db nick content).1) ∧
    (∀ content, Out.handleSpecificTradeItem ∉
      (handleGroupMessage ParseFloat db sender content).1) := by
  have hs : Split "交易12号" = ["交易12号"] := by decide
  refine ⟨?_, ?_, ?_, ?_⟩
  · rw [handlePrivateMessage_trade _ _ _ _ (by decide)]
    unfold privateSwitch
    rw [if_pos (by decide), hs]
  · rw [handleGroupMessage_trade _ _ _ _ (by decide)]
    unfold groupSwitch
    rw [if_pos (by decide), hs]
  · intro content hmem
    have := handlePrivateMessage_out ParseFloat db nick content _ hmem
    simp [Out.reachable] at this
  · intro content hmem
    have := handleGroupMessage_out ParseFloat db sender content _ hmem
    simp [Out.reachable] at this

/-- C9, the code at the failing inputs `交易区` and `交易区：手办`: in private chat
and in a group each gets the reply to a create command with missing fields and
nothing else, the ledger being left as it was; and on no text message does
either handler reach `handleTradeZone`. -/
theorem trade_zone_shadowed (ParseFloat : String → Option Float64) (db : DB)
    (nick : String) (sender : GroupSender) :
    handlePrivateMessage ParseFloat db nick "交易区" = ([.ReplyText incompletePrivate], db) ∧
    handlePrivateMessage ParseFloat db nick "交易区：手办" =
      ([.ReplyText incompletePrivate], db) ∧
    handleGroupMessage ParseFloat db sender "交易区" = ([.ReplyText incompleteGroup], db) ∧
    handleGroupMessage ParseFloat db sender "交易区：手办" =
      ([.ReplyText incompleteGroup], db) ∧
    (∀ content, Out.handleTradeZone ∉ (handlePrivateMessage ParseFloat db nick content).1) ∧
    (∀ content, Out.handleTradeZone ∉
      (handleGroupMessage ParseFloat db sender content).1) := by
  have hs1 : Split "交易区" = ["交易区"] := by decide
  have hs2 : Split "交易区：手办" = ["交易区：手办"] := by decide
  refine ⟨?_, ?_, ?_, ?_, ?_, ?_⟩
  · rw [handlePrivateMessage_trade _ _ _ _ (by decide)]
    unfold privateSwitch
    rw [if_pos (by decide), hs1]
  · rw [handlePrivateMessage_trade _ _ _ _ (by decide)]
    unfold privateSwitch
    rw [if_pos (by decide), hs2]
  · rw [handleGroupMessage_trade _ _ _ _ (by decide)]
    unfold groupSwitch
    rw [if_pos (by decide), hs1]
  · rw [handleGroupMessage_trade _ _ _ _ (by decide)]
    unfold groupSwitch
    rw [if_pos (by decide), hs2]
  · intro content hmem
    have := handlePrivateMessage_out ParseFloat db nick content _ hmem
    simp [Out.reachable] at this
  · intro content hmem
    have := handleGroupMessage_out ParseFloat db sender content _ hmem
    simp [Out.reachable] at this

/-! ## Creating a trade item (C6, C7) -/

/-- The row `insertTradeItem` appends. -/
theorem insertTradeItem_some (db : DB) (s n d : String) (v : Num) (k : Int) :
    insertTradeItem db s n d (some v) k =
      (none, { recharge_records := db.recharge_records,
               trade_items := db.trade_items ++
                 [{ id := nextId (db.trade_items.map (·.id)), seller := s, buyers := "",
                    group_id := "", item_name := n, description := d, price := v,
                    quantity := k, image_file_name := "" }] }) := rfl

theorem createTradeItem_cases (ParseFloat : String → Option Float64) (db : DB)
    (s n p : String) (q : Option String) (d : String) :
    (ParseFloat p = none →
      createTradeItem ParseFloat db s n p q d =
        ([.ReplyText "价格格式不正确。请确保是数字。"], db)) ∧
    (∀ price, ParseFloat p = some price → (quantityOf q).2 = false →
      createTradeItem ParseFloat db s n p q d =
        ([.ReplyText "数量格式不正确。请确保是整数。"], db)) ∧
    (∀ k, ParseFloat p = some none → quantityOf q = (k, true) →
      createTradeItem ParseFloat db s n p q d =
        ([.ReplyText "创建交易品失败：NOT NULL constraint failed: trade_items.price"], db)) ∧
    (∀ v k, ParseFloat p = some (some v) → quantityOf q = (k, true) →
      createTradeItem ParseFloat db s n p q d =
        ([.ReplyText (createdReply n)], (insertTradeItem db s n d (some v) k).2)) := by
  refine ⟨?_, ?_, ?_, ?_⟩
  · intro h
    unfold createTradeItem
    rw [h]
  · intro price h hq
    unfold createTradeItem
    rw [h]
    rcases hk : quantityOf q with ⟨k, ok⟩
    rw [hk] at hq
    dsimp only at hq
    subst hq
    rfl
  · intro k h hq
    unfold createTradeItem
    rw [h, hq]
    rfl
  · intro v k h hq
    unfold createTradeItem
    rw [h, hq]
    rfl

theorem privateSwitch_create (ParseFloat : String → Option Float64) (db : DB)
    (nick content kw seller name p : String) (tail : List String)
    (hpre : HasPrefix content "交易" = true) (hlen : tail.length ≤ 2)
    (hsplit : Split content = kw :: seller :: name :: p :: tail) :
    privateSwitch ParseFloat db nick content =
      createTradeItem ParseFloat db seller name p tail.head? (tail.getD 1 "") := by
  unfold privateSwitch
  rw [if_pos hpre, hsplit]
  match tail, hlen with
  | [], _ => rfl
  | [_], _ => rfl
  | [_, _], _ => rfl
  | _ :: _ :: _ :: _, h => simp at h

theorem groupSwitch_create (ParseFloat : String → Option Float64) (db : DB)
    (nick content kw name p : String) (tail : List String)
    (hpre : HasPrefix content "交易" = true) (hlen : tail.length ≤ 2)
    (hsplit : Split content = kw :: name :: p :: tail) :
    groupSwitch ParseFloat db nick content =
      createTradeItem ParseFloat db nick name p tail.head? (tail.getD 1 "") := by
  unfold groupSwitch
  rw [if_pos hpre, hsplit]
  match tail, hlen with
  | [], _ => rfl
  | [_], _ => rfl
  | [_, _], _ => rfl
  | _ :: _ :: _ :: _, h => simp at h

/-- C6 as amended. A create command is a text that begins with 交易 and has,
between full-width commas, 4 to 6 fields in private chat (keyword, seller,
name, price and up to two more) or 3 to 5 in a group (keyword, name, price and
up to two more). It is refused, with a reply and the ledger unchanged, when the
price field does not parse, when the quantity field is there and does not
parse, and when the price parses to NaN. In every other case, whatever the
sign of the price `v` and of the quantity `k`, the item is inserted with price
`v` and quantity `k`; and `insertTradeItem` itself returns `nil` for every
price but NaN and every quantity. -/
theorem create_refuses_only_unparsed (ParseFloat : String → Option Float64) (db : DB)
    (nick : String) (sender : GroupSender) (content kw seller name p : String)
    (tail : List String) (hpre : HasPrefix content "交易" = true) (hlen : tail.length ≤ 2) :
    (Split content = kw :: seller :: name :: p :: tail →
      (ParseFloat p = none →
        handlePrivateMessage ParseFloat db nick content =
          ([.ReplyText "价格格式不正确。请确保是数字。"], db)) ∧
      (∀ price, ParseFloat p = some price → (quantityOf tail.head?).2 = false →
        handlePrivateMessage ParseFloat db nick content =
          ([.ReplyText "数量格式不正确。请确保是整数。"], db)) ∧
      (∀ k, ParseFloat p = some none → quantityOf tail.head? = (k, true) →
        handlePrivateMessage ParseFloat db nick content =
          ([.ReplyText "创建交易品失败：NOT NULL constraint failed: trade_items.price"], db)) ∧
      (∀ v k, ParseFloat p = some (some v) → quantityOf tail.head? = (k, true) →
        handlePrivateMessage ParseFloat db nick content =
          ([.ReplyText (createdReply name)],
           { recharge_records := db.recharge_records,
             trade_items := db.trade_items ++
               [{ id := nextId (db.trade_items.map (·.id)), seller := seller, buyers := "",
                  group_id := "", item_name := name, description := tail.getD 1 "",
                  price := v, quantity := k, image_file_name := "" }] }))) ∧
    (Split content = kw :: name :: p :: tail →
      (ParseFloat p = none →
        handleGroupMessage ParseFloat db sender content =
          ([.ReplyText "价格格式不正确。请确保是数字。"], db)) ∧
      (∀ price, ParseFloat p = some price → (quantityOf tail.head?).2 = false →
        handleGroupMessage ParseFloat db sender content =
          ([.ReplyText "数量格式不正确。请确保是整数。"], db)) ∧
      (∀ k, ParseFloat p = some none → quantityOf tail.head? = (k, true) →
        handleGroupMessage ParseFloat db sender content =
          ([.ReplyText "创建交易品失败：NOT NULL constraint failed: trade_items.price"], db)) ∧
      (∀ v k, ParseFloat p = some (some v) → quantityOf tail.head? = (k, true) →
        handleGroupMessage ParseFloat db sender content =
          ([.ReplyText (createdReply name)],
           { recharge_records := db.recharge_records,
             trade_items := db.trade_items ++
               [{ id := nextId (db.trade_items.map (·.id)), seller := sender.nick,
                  buyers := "", group_id := "", item_name := name,
                  description := tail.getD 1 "", price := v, quantity := k,
                  image_file_name := "" }] }))) ∧
    (∀ s n d v k, (insertTradeItem db s n d (some v) k).1 = none ∧
      (insertTradeItem db s n d (some v) k).2.trade_items.getLast? =
        some { id := nextId (db.trade_items.map (·.id)), seller := s, buyers := "",
               group_id := "", item_name := n, description := d, price := v,
               quantity := k, image_file_name := "" }) := by
  refine ⟨?_, ?_, ?_⟩
  · intro hsplit
    rw [handlePrivateMessage_trade _ _ _ _ hpre,
      privateSwitch_create _ _ _ _ kw seller name p tail hpre hlen hsplit]
    obtain ⟨h1, h2, h3, h4⟩ :=
      createTradeItem_cases ParseFloat db seller name p tail.head? (tail.getD 1 "")
    refine ⟨h1, h2, h3, ?_⟩
    intro v k hv hk
    rw [h4 v k hv hk, insertTradeItem_some]
  · intro hsplit
    rw [handleGroupMessage_trade _ _ _ _ hpre,
      groupSwitch_create _ _ _ _ kw name p tail hpre hlen hsplit]
    obtain ⟨h1, h2, h3, h4⟩ :=
      createTradeItem_cases ParseFloat db sender.nick name p tail.head? (tail.getD 1 "")
    refine ⟨h1, h2, h3, ?_⟩
    intro v k hv hk
    rw [h4 v k hv hk, insertTradeItem_some]
  · intro s n d v k
    rw [insertTradeItem_some]
    exact ⟨rfl, by simp⟩

/-- Witness of C6 as amended: the private text `交易，老王，手办，-5，-2，限量版`
on the empty ledger creates the item with price -5 and quantity -2. -/
theorem create_refuses_only_unparsed_witness :
    HasPrefix "交易，老王，手办，-5，-2，限量版" "交易" = true ∧
    handlePrivateMessage parseDecimal emptyDB "n" "交易，老王，手办，-5，-2，限量版" =
      ([.ReplyText (createdReply "手办")],
       { recharge_records := [],
         trade_items := [{ id := 1, seller := "老王", buyers := "", group_id := "",
                           item_name := "手办", description := "限量版", price := .fin (-5),
                           quantity := -2, image_file_name := "" }] }) :=
  ⟨by decide,
   ((create_refuses_only_unparsed parseDecimal emptyDB "n" someSender
      "交易，老王，手办，-5，-2，限量版" "交易" "老王" "手办" "-5" ["-2", "限量版"]
      (by decide) (by decide)).1 (by decide)).2.2.2 (.fin (-5)) (-2) (by decide) (by decide)⟩

/-- C6 as stated fails: the private text `交易，老王，手办，-5，-2，限量版` (price
-5, quantity -2) and the group text `交易，手办，0，-1` (price 0, quantity -1)
are not refused but answered with the created reply, the item being inserted
with that price and quantity; and `insertTradeItem` called with price -5 and
quantity -2 returns `nil`. -/
theorem nonpositive_price_item_created :
    Num.nonpos (.fin (-5)) = true ∧ Num.nonpos (.fin 0) = true ∧
    (handlePrivateMessage parseDecimal emptyDB "n" "交易，老王，手办，-5，-2，限量版").1 =
      [.ReplyText (createdReply "手办")] ∧
    (handlePrivateMessage parseDecimal emptyDB "n"
        "交易，老王，手办，-5，-2，限量版").2.trade_items.map (fun t => (t.price, t.quantity)) =
      [(.fin (-5), -2)] ∧
    (handleGroupMessage parseDecimal emptyDB someSender "交易，手办，0，-1").1 =
      [.ReplyText (createdReply "手办")] ∧
    (handleGroupMessage parseDecimal emptyDB someSender
        "交易，手办，0，-1").2.trade_items.map (fun t => (t.price, t.quantity)) =
      [(.fin 0, -1)] ∧
    (insertTradeItem emptyDB "老王" "手办" "限量版" (some (.fin (-5))) (-2)).1 = none ∧
    (insertTradeItem emptyDB "老王" "手办" "限量版"
        (some (.fin (-5))) (-2)).2.trade_items.map (fun t => (t.price, t.quantity)) =
      [(.fin (-5), -2)] := by
  decide

theorem splitChars_no_sep (sep : Char) (cs : List Char) (h : sep ∉ cs) :
    splitChars sep cs = [cs] := by
  induction cs with
  | nil => rfl
  | cons c cs ih =>
    have hc : c ≠ sep := fun e => h (by rw [e]; exact List.mem_cons_self _ _)
    have hcs : sep ∉ cs := fun e => h (List.mem_cons_of_mem _ e)
    unfold splitChars
    rw [if_neg hc, ih hcs]

theorem splitChars_field (sep : Char) (a rest : List Char) (h : sep ∉ a) :
    splitChars sep (a ++ sep :: rest) = a :: splitChars sep rest := by
  induction a with
  | nil => simp [splitChars]
  | cons c cs ih =>
    have hc : c ≠ sep := fun e => h (by rw [e]; exact List.mem_cons_self _ _)
    have hcs : sep ∉ cs := fun e => h (List.mem_cons_of_mem _ e)
    have ih2 := ih hcs
    simp only [List.cons_append, splitChars, if_neg hc]
    show (match splitChars sep (cs ++ sep :: rest) with
      | [] => [[c]]
      | f :: fs => (c :: f) :: fs) = _
    rw [ih2]

theorem isDigit_ne (c a : Char) (hc : c.isDigit = true) (ha : a.isDigit = false) : c ≠ a := by
  intro e
  rw [e, ha] at hc
  exact Bool.false_ne_true hc

theorem digits_no_comma (ds : List Char) (h : ds.all Char.isDigit = true) : comma ∉ ds := by
  intro hmem
  rw [List.all_eq_true] at h
  have h1 := h comma hmem
  have h2 : comma.isDigit = false := by decide
  rw [h2] at h1
  exact Bool.false_ne_true h1

/-- Function `strconv.Atoi` on one or more ASCII digits that write a number below `2^63`. -/
theorem Atoi_digits (q : String) (hne : q.data ≠ []) (hd : q.data.all Char.isDigit = true)
    (hlt : digitsVal q.data < 9223372036854775808) :
    Atoi q = ((digitsVal q.data : Int), true) := by
  cases hq : q.data with
  | nil => exact absurd hq hne
  | cons c r =>
    have hall := hd
    rw [hq] at hall
    have hc : c.isDigit = true := by
      rw [List.all_eq_true] at hall
      exact hall c (List.mem_cons_self _ _)
    have h1 : c ≠ '-' := isDigit_ne c _ hc (by decide)
    have h2 : c ≠ '+' := isDigit_ne c _ hc (by decide)
    have hds : (match c :: r with
        | '-' :: r => r
        | '+' :: r => r
        | r => r) = c :: r := by
      split
      · rename_i heq; injection heq with e _; exact absurd e h1
      · rename_i heq; injection heq with e _; exact absurd e h2
      · rfl
    have hneg : (match c :: r with
        | '-' :: _ => true
        | _ => false) = false := by
      split
      · rename_i heq; injection heq with e _; exact absurd e h1
      · rfl
    have hlt' : (digitsVal (c :: r) : Int) < 9223372036854775808 := by
      rw [hq] at hlt
      exact_mod_cast hlt
    unfold Atoi
    rw [hq]
    simp only [hds, hneg]
    rw [if_neg (by simp [hall]), if_neg (by simp), if_pos hlt']

/-- The fields of the six-field private create command. -/
theorem Split_six (s n p q d : String) (hs : comma ∉ s.data) (hn : comma ∉ n.data)
    (hp : comma ∉ p.data) (hq : comma ∉ q.data) (hd : comma ∉ d.data) :
    Split ("交易，" ++ s ++ "，" ++ n ++ "，" ++ p ++ "，" ++ q ++ "，" ++ d) =
      ["交易", s, n, p, q, d] := by
  have hdata : ("交易，" ++ s ++ "，" ++ n ++ "，" ++ p ++ "，" ++ q ++ "，" ++ d).data =
      ['交', '易'] ++ comma :: (s.data ++ comma :: (n.data ++ comma :: (p.data ++ comma ::
        (q.data ++ comma :: d.data)))) := by
    simp [String.data_append, comma]
  unfold Split
  rw [hdata, splitChars_field _ _ _ (by decide), splitChars_field _ _ _ hs,
    splitChars_field _ _ _ hn, splitChars_field _ _ _ hp, splitChars_field _ _ _ hq,
    splitChars_no_sep _ _ hd]
  rfl

/-- C7 as amended. For every private text `交易，s，n，p，q，d` in which `s`,
`n`, `p` and `d` hold no full-width comma, `strconv.ParseFloat` reads `p` as a
number `v` (any number, so any positive one) and `q` is one or more ASCII
digits that write an integer below `2^63`: the handler answers with the created
reply and appends to the ledger the item with seller `s`, name `n`, description
`d`, price `v`, the quantity `q` writes, and empty venue, buyers and image. -/
theorem create_six_fields (ParseFloat : String → Option Float64) (db : DB)
    (nick s n p q d : String) (v : Num)
    (hs : comma ∉ s.data) (hn : comma ∉ n.data) (hp : comma ∉ p.data) (hd : comma ∉ d.data)
    (hpv : ParseFloat p = some (some v))
    (hq1 : q.data ≠ []) (hq2 : q.data.all Char.isDigit = true)
    (hq3 : digitsVal q.data < 9223372036854775808) :
    handlePrivateMessage ParseFloat db nick
        ("交易，" ++ s ++ "，" ++ n ++ "，" ++ p ++ "，" ++ q ++ "，" ++ d) =
      ([.ReplyText (createdReply n)],
       { recharge_records := db.recharge_records,
         trade_items := db.trade_items ++
           [{ id := nextId (db.trade_items.map (·.id)), seller := s, buyers := "",
              group_id := "", item_name := n, description := d, price := v,
              quantity := (digitsVal q.data : Int), image_file_name := "" }] }) := by
  have hsplit := Split_six s n p q d hs hn hp (digits_no_comma _ hq2) hd
  have hpre : HasPrefix ("交易，" ++ s ++ "，" ++ n ++ "，" ++ p ++ "，" ++ q ++ "，" ++ d)
      "交易" = true := by
    rw [hasPrefix_iff]
    refine ⟨comma :: (s ++ "，" ++ n ++ "，" ++ p ++ "，" ++ q ++ "，" ++ d).data, ?_⟩
    simp [String.data_append, comma]
  rw [handlePrivateMessage_trade _ _ _ _ hpre,
    privateSwitch_create _ _ _ _ "交易" s n p [q, d] hpre (by simp) hsplit]
  have hk : quantityOf ([q, d] : List String).head? = ((digitsVal q.data : Int), true) := by
    show Atoi q = _
    exact Atoi_digits q hq1 hq2 hq3
  rw [(createTradeItem_cases ParseFloat db s n p _ _).2.2.2 v _ hpv hk, insertTradeItem_some]
  rfl

/-- Witness of C7 as amended: `交易，老王，手办，50，2，限量版` on the empty ledger. -/
theorem create_six_fields_witness :
    handlePrivateMessage parseDecimal emptyDB "n" "交易，老王，手办，50，2，限量版" =
      ([.ReplyText (createdReply "手办")],
       { recharge_records := [],
         trade_items := [{ id := 1, seller := "老王", buyers := "", group_id := "",
                           item_name := "手办", description := "限量版", price := .fin 50,
                           quantity := 2, image_file_name := "" }] }) :=
  create_six_fields parseDecimal emptyDB "n" "老王" "手办" "50" "2" "限量版" (.fin 50)
    (by decide) (by decide) (by decide) (by decide) (by decide) (by decide) (by decide)
    (by decide)

/-- C7 as stated fails: in `交易，老王，手办，50，9223372036854775808，限量版` the
quantity field is the decimal writing of the non-negative integer `2^63` and
the price field that of 50, yet the message is refused with the quantity reply
and no item is inserted. -/
theorem create_refused_on_large_quantity :
    ("9223372036854775808" : String).data.all Char.isDigit = true ∧
    digitsVal ("9223372036854775808" : String).data = 9223372036854775808 ∧
    parseDecimal "50" = some (some (.fin 50)) ∧ Num.pos (.fin 50) = true ∧
    handlePrivateMessage parseDecimal emptyDB "n"
        "交易，老王，手办，50，9223372036854775808，限量版" =
      ([.ReplyText "数量格式不正确。请确保是整数。"], emptyDB) := by
  decide

/-! ## Binding an item to a group (C13) -/

theorem bindTradeItemToGroup_absent (db : DB) (tradeItemID : Int) (groupID : String)
    (h : ∀ t ∈ db.trade_items, (t.id : Int) ≠ tradeItemID) :
    (bindTradeItemToGroup db tradeItemID groupID).2 = db := by
  unfold bindTradeItemToGroup
  have hmap : db.trade_items.map (fun t =>
      if (t.id : Int) = tradeItemID then { t with group_id := groupID } else t) =
      db.trade_items := by
    conv_rhs => rw [← List.map_id db.trade_items]
    apply List.map_congr_left
    intro t ht
    rw [if_neg (h t ht)]
    rfl
  simp only [hmap]

/-- C13 as amended. For every ledger, item id and group id `bindTradeItemToGroup`
returns `nil`, also when no trade item has the id, in which case the ledger is
left as it was. In general the recharge records are untouched, the items keep
their number and order, every item with the id gets the group as its
`group_id` (whatever it was before) and keeps its other fields, and every
other item is unchanged. -/
theorem bindTradeItemToGroup_spec (db : DB) (tradeItemID : Int) (groupID : String) :
    (bindTradeItemToGroup db tradeItemID groupID).1 = none ∧
    ((∀ t ∈ db.trade_items, (t.id : Int) ≠ tradeItemID) →
      (bindTradeItemToGroup db tradeItemID groupID).2 = db) ∧
    (bindTradeItemToGroup db tradeItemID groupID).2.recharge_records = db.recharge_records ∧
    (bindTradeItemToGroup db tradeItemID groupID).2.trade_items.length =
      db.trade_items.length ∧
    ∀ (i : Nat) (h : i < db.trade_items.length)
      (h1 : i < (bindTradeItemToGroup db tradeItemID groupID).2.trade_items.length),
      ((db.trade_items[i].id : Int) = tradeItemID →
        (bindTradeItemToGroup db tradeItemID groupID).2.trade_items[i] =
          { db.trade_items[i] with group_id := groupID }) ∧
      ((db.trade_items[i].id : Int) ≠ tradeItemID →
        (bindTradeItemToGroup db tradeItemID groupID).2.trade_items[i] =
          db.trade_items[i]) := by
  refine ⟨rfl, bindTradeItemToGroup_absent db tradeItemID groupID, rfl, ?_, ?_⟩
  · simp [bindTradeItemToGroup]
  · intro i h h1
    constructor
    · intro hid
      simp [bindTradeItemToGroup, hid]
    · intro hid
      simp [bindTradeItemToGroup, hid]

/-- C13 as stated fails: on the empty ledger, where no item has id 7,
`bindTradeItemToGroup` returns `nil`, not an error; and `开始交易7号，…` sent in a
group is answered with the start of the trade, not with the failure reply. -/
theorem bind_absent_item_succeeds :
    (∀ t ∈ emptyDB.trade_items, (t.id : Int) ≠ 7) ∧
    bindTradeItemToGroup emptyDB 7 "g" = (none, emptyDB) ∧
    (handleGroupMessage parseDecimal emptyDB someSender
        "开始交易7号，名称：手办，价格：50.00，描述：限量版").1.head? =
      some (.ReplyText "现在开始交易，请买家扫描下方二维码联系微信转账，进行下一步指示") := by
  decide

/-! ## The sold count of `handleMyTradeItems` (C16) -/

theorem getUserTradeItems_buyers (db : DB) (seller : String) :
    ∀ item ∈ getUserTradeItems db seller, item.buyers = "" := by
  intro item hmem
  unfold getUserTradeItems at hmem
  obtain ⟨t, _, ht⟩ := List.mem_map.mp hmem
  rw [← ht]

/-- C16, the code at the failing input: for the item of `dbOneSold`, whose
`buyers` field `bob|` records one buyer, `handleMyTradeItems` reports the sold
count 0 (已售出：0). `getUserTradeItems` does not select the `buyers` column, so
for every ledger and seller the count computed from the items it returns is
0; and read from the stored field itself, the count of `bob|` would be 2. -/
theorem sold_count_reported_zero :
    handleMyTradeItems dbOneSold "老王" =
      [.ReplyText "交易品ID：3，名称：手办，价格：50.00，描述：限量版，数量：1，已售出：0"] ∧
    (∀ db seller, ∀ item ∈ getUserTradeItems db seller, soldOut item = 0) ∧
    (∀ t ∈ dbOneSold.trade_items, t.buyers = "bob|" ∧ soldOut t = 2) := by
  refine ⟨by decide, ?_, by decide⟩
  intro db seller item hmem
  have hb := getUserTradeItems_buyers db seller item hmem
  unfold soldOut
  rw [hb]
  rfl

/-! ## The redeem-code form in a group (C12) -/

theorem dropLit_append (l r : List Char) : dropLit l (l ++ r) = some r := by
  induction l with
  | nil => cases r <;> rfl
  | cons a l ih => simp [dropLit, ih]

theorem matchTradeStart_none_of_head (cs t : List Char) (c : Char) (hc : cs = c :: t)
    (hne : '开' ≠ c) : matchTradeStart cs = none := by
  unfold matchTradeStart
  have hl : ("开始交易" : String).data = '开' :: ("始交易" : String).data := rfl
  rw [hc, hl, dropLit_none_of_head _ _ _ _ hne]

theorem matchRedeemCode_some (cs code : List Char) (h : matchRedeemCode cs = some code) :
    cs = "兑换码：".data ++ code ∧ code ≠ [] ∧ code.all Char.isDigit = true := by
  unfold matchRedeemCode at h
  cases hd : dropLit "兑换码：".data cs with
  | none => rw [hd] at h; simp at h
  | some r =>
    rw [hd] at h
    cases r with
    | nil => simp at h
    | cons d ds =>
      dsimp only at h
      by_cases hall : (d :: ds).all Char.isDigit = true
      · rw [if_pos hall] at h
        injection h with h
        subst h
        exact ⟨dropLit_some _ _ _ hd, by simp, hall⟩
      · rw [if_neg hall] at h
        simp at h

theorem matchRedeemCode_digits (code : List Char) (hne : code ≠ [])
    (hall : code.all Char.isDigit = true) :
    matchRedeemCode ("兑换码：".data ++ code) = some code := by
  unfold matchRedeemCode
  rw [dropLit_append]
  cases code with
  | nil => exact absurd rfl hne
  | cons d ds =>
    dsimp only
    rw [if_pos hall]

theorem createTradeItem_records (ParseFloat : String → Option Float64) (db : DB)
    (s n p : String) (q : Option String) (d : String) :
    (createTradeItem ParseFloat db s n p q d).2.recharge_records = db.recharge_records := by
  unfold createTradeItem
  cases ParseFloat p with
  | none => rfl
  | some price =>
    dsimp only
    rcases quantityOf q with ⟨k, ok⟩
    cases ok with
    | false => rfl
    | true =>
      cases price with
      | none => rfl
      | some v => rfl

theorem groupSwitch_records (ParseFloat : String → Option Float64) (db : DB)
    (nick content : String) :
    (groupSwitch ParseFloat db nick content).2.recharge_records = db.recharge_records := by
  unfold groupSwitch
  split
  · split
    · exact createTradeItem_records ..
    · exact createTradeItem_records ..
    · exact createTradeItem_records ..
    · rfl
  · split
    · rfl
    · split
      · rfl
      · split <;> rfl

/-- C12. A text message in a group enters the redeem-code block of
`handleGroupMessage` with the code `code` if and only if the text is `兑换码：`
followed by `code`, a non-empty string of ASCII digits, and nothing else; the
code is taken as written, leading zeros included. With such a text the handler
runs the redeem-code block on `code`; with any other text it redeems no code:
the recharge records stay as they were and no transfer is confirmed. -/
theorem redeem_code_recognised (ParseFloat : String → Option Float64) (db : DB)
    (sender : GroupSender) (content : String) :
    (∀ code : String, redeemCodeOf content = some code ↔
      (content = "兑换码：" ++ code ∧ code.data ≠ [] ∧ code.data.all Char.isDigit = true)) ∧
    (∀ code : String, redeemCodeOf content = some code →
      handleGroupMessage ParseFloat db sender content = redeemBlock db sender code) ∧
    (redeemCodeOf content = none →
      (handleGroupMessage ParseFloat db sender content).2.recharge_records =
        db.recharge_records ∧
      ∀ amount, Out.replyTransferred amount ∉
        (handleGroupMessage ParseFloat db sender content).1) := by
  refine ⟨?_, ?_, ?_⟩
  · intro code
    constructor
    · intro h
      unfold redeemCodeOf at h
      cases hts : matchTradeStart content.data with
      | some x => rw [hts] at h; simp at h
      | none =>
        rw [hts] at h
        cases hrc : matchRedeemCode content.data with
        | none => rw [hrc] at h; simp at h
        | some l =>
          rw [hrc] at h
          simp only [Option.map_some', Option.some.injEq] at h
          obtain ⟨h1, h2, h3⟩ := matchRedeemCode_some _ _ hrc
          subst h
          refine ⟨?_, h2, h3⟩
          apply String.ext
          rw [String.data_append]
          exact h1
    · rintro ⟨h1, h2, h3⟩
      have hdata : content.data = "兑换码：".data ++ code.data := by
        rw [h1, String.data_append]
      have hts : matchTradeStart content.data = none :=
        matchTradeStart_none_of_head _ ("换码：".data ++ code.data) '兑' (by rw [hdata]; rfl)
          (by decide)
      unfold redeemCodeOf
      rw [hts, hdata, matchRedeemCode_digits _ h2 h3]
      rfl
  · intro code h
    unfold redeemCodeOf at h
    unfold handleGroupMessage redeemBlock
    cases hts : matchTradeStart content.data with
    | some x => rw [hts] at h; simp at h
    | none =>
      rw [hts] at h
      cases hrc : matchRedeemCode content.data with
      | none => rw [hrc] at h; simp at h
      | some l =>
        rw [hrc] at h
        simp only [Option.map_some', Option.some.injEq] at h
        subst h
        rfl
  · intro h
    unfold redeemCodeOf at h
    unfold handleGroupMessage
    cases hts : matchTradeStart content.data with
    | some x =>
      obtain ⟨tradeID, tradeName, tradePrice⟩ := x
      refine ⟨rfl, ?_⟩
      intro amount hmem
      unfold bindTradeItemToGroup at hmem
      dsimp only at hmem
      rcases List.mem_append.mp hmem with h1 | h1
      · simp at h1
      · split at h1 <;> simp at h1
    | none =>
      rw [hts] at h
      cases hrc : matchRedeemCode content.data with
      | some l => rw [hrc] at h; simp at h
      | none =>
        dsimp only
        refine ⟨groupSwitch_records .., ?_⟩
        intro amount hmem
        rcases groupSwitch_out ParseFloat db sender.nick content with ⟨t, ht⟩ | ht | ht
        · rw [ht] at hmem; simp at hmem
        · rw [ht] at hmem; simp at hmem
        · rw [ht] at hmem; simp at hmem

/-- Witness of C12: `兑换码：123456` gives the code `123456`, and `兑换码：007`
the code `007`. -/
theorem redeem_code_recognised_witness :
    redeemCodeOf "兑换码：123456" = some "123456" ∧ redeemCodeOf "兑换码：007" = some "007" :=
  ⟨((redeem_code_recognised parseDecimal emptyDB someSender "兑换码：123456").1 "123456").mpr
      ⟨by decide, by decide, by decide⟩,
   ((redeem_code_recognised parseDecimal emptyDB someSender "兑换码：007").1 "007").mpr
      ⟨by decide, by decide, by decide⟩⟩

/-! ## Amount of a transfer (C11) -/

theorem takeWhile_digits_stop (a u : List Char) (x : Char)
    (ha : a.all Char.isDigit = true) (hx : x.isDigit = false) :
    (a ++ x :: u).takeWhile Char.isDigit = a := by
  rw [List.takeWhile_append_of_pos (fun c hc => List.all_eq_true.mp ha c hc)]
  simp [List.takeWhile_cons, hx]

theorem digits_split_unique (a b u v : List Char) (x y : Char)
    (ha : a.all Char.isDigit = true) (hb : b.all Char.isDigit = true)
    (hx : x.isDigit = false) (hy : y.isDigit = false) (h : a ++ x :: u = b ++ y :: v) :
    a = b ∧ x = y ∧ u = v := by
  have h1 := takeWhile_digits_stop a u x ha hx
  have h2 := takeWhile_digits_stop b v y hb hy
  rw [h] at h1
  have hab : a = b := by rw [← h1, h2]
  subst hab
  have h3 := List.append_cancel_left h
  injection h3 with h4 h5
  exact ⟨rfl, h4, h5⟩

theorem dropWhile_head_not_digit (cs r : List Char) (c : Char)
    (h : cs.dropWhile Char.isDigit = c :: r) : c.isDigit = false := by
  have hne : cs.dropWhile Char.isDigit ≠ [] := by rw [h]; simp
  have := List.head_dropWhile_not Char.isDigit cs hne
  simpa [h] using this

theorem takeWhile_all_digits (cs : List Char) :
    (cs.takeWhile Char.isDigit).all Char.isDigit = true := by
  rw [List.all_eq_true]
  intro c hc
  exact List.mem_takeWhile_imp hc

/-- What `matchDecimal` returns: a run of digits that no digit and no point
followed by a digit continues, or digits, a point and a run of digits that no
digit continues. -/
theorem matchDecimal_spec (cs m rest : List Char) (h : matchDecimal cs = some (m, rest)) :
    cs = m ++ rest ∧
    ((m ≠ [] ∧ m.all Char.isDigit = true ∧
        ∀ c r, rest = c :: r → c.isDigit = false ∧
          (c = '.' → ∀ d r', r = d :: r' → d.isDigit = false)) ∨
     (∃ i f, m = i ++ '.' :: f ∧ i ≠ [] ∧ i.all Char.isDigit = true ∧
        f ≠ [] ∧ f.all Char.isDigit = true ∧ ∀ c r, rest = c :: r → c.isDigit = false)) := by
  unfold matchDecimal at h
  rw [List.span_eq_take_drop] at h
  have hcat := List.takeWhile_append_dropWhile Char.isDigit cs
  have hall := takeWhile_all_digits cs
  cases hi : cs.takeWhile Char.isDigit with
  | nil => rw [hi] at h; simp at h
  | cons i0 is =>
    rw [hi] at h hcat hall
    cases hd : cs.dropWhile Char.isDigit with
    | nil =>
      rw [hd] at h hcat
      simp only [Option.some.injEq, Prod.mk.injEq] at h
      obtain ⟨h1, h2⟩ := h
      subst h1 h2
      refine ⟨hcat.symm, Or.inl ⟨by simp, hall, ?_⟩⟩
      intro c r hcr
      simp at hcr
    | cons c r =>
      have hc := dropWhile_head_not_digit cs r c hd
      rw [hd] at h hcat
      dsimp only at h
      by_cases hpt : c = '.'
      · rw [if_pos hpt, List.span_eq_take_drop] at h
        have hcat2 := List.takeWhile_append_dropWhile Char.isDigit r
        have hall2 := takeWhile_all_digits r
        cases hf : r.takeWhile Char.isDigit with
        | nil =>
          rw [hf] at h
          simp only [Option.some.injEq, Prod.mk.injEq] at h
          obtain ⟨h1, h2⟩ := h
          subst h1 h2
          refine ⟨hcat.symm, Or.inl ⟨by simp, hall, ?_⟩⟩
          intro c' r1 hcr
          injection hcr with e1 e2
          subst e1 e2
          refine ⟨hc, ?_⟩
          intro _ d r' hr
          rw [hr, List.takeWhile_cons] at hf
          by_cases hdig : d.isDigit = true
          · rw [if_pos hdig] at hf; simp at hf
          · simpa using hdig
        | cons f0 fs =>
          rw [hf] at h hcat2 hall2
          simp only [Option.some.injEq, Prod.mk.injEq] at h
          obtain ⟨h1, h2⟩ := h
          subst h1 h2
          subst hpt
          refine ⟨?_, Or.inr ⟨i0 :: is, f0 :: fs, rfl, by simp, hall, by simp, hall2, ?_⟩⟩
          · rw [← hcat]
            conv_lhs => rw [← hcat2]
            simp
          · intro c' r1 hcr
            exact dropWhile_head_not_digit r r1 c' hcr
      · rw [if_neg hpt] at h
        simp only [Option.some.injEq, Prod.mk.injEq] at h
        obtain ⟨h1, h2⟩ := h
        subst h1 h2
        refine ⟨hcat.symm, Or.inl ⟨by simp, hall, ?_⟩⟩
        intro c' r1 hcr
        injection hcr with e1 e2
        subst e1 e2
        exact ⟨hc, fun e => absurd e hpt⟩

theorem matchDecimal_head (c : Char) (cs : List Char) :
    (c.isDigit = false → matchDecimal (c :: cs) = none) ∧
    (c.isDigit = true → ∃ m rest, matchDecimal (c :: cs) = some (m, rest)) := by
  constructor
  · intro hc
    unfold matchDecimal
    rw [List.span_eq_take_drop, List.takeWhile_cons]
    simp [hc]
  · intro hc
    unfold matchDecimal
    rw [List.span_eq_take_drop, List.takeWhile_cons, List.dropWhile_cons, if_pos hc, if_pos hc]
    cases cs.dropWhile Char.isDigit with
    | nil => exact ⟨_, _, rfl⟩
    | cons x r =>
      dsimp only
      by_cases hpt : x = '.'
      · rw [if_pos hpt, List.span_eq_take_drop]
        cases r.takeWhile Char.isDigit with
        | nil => exact ⟨_, _, rfl⟩
        | cons f0 fs => exact ⟨_, _, rfl⟩
      · rw [if_neg hpt]
        exact ⟨_, _, rfl⟩

/-- What `findDecimal` returns: nothing when the text has no digit, else the
match of `matchDecimal` at the first digit. -/
theorem findDecimal_spec (cs : List Char) :
    ((∀ c ∈ cs, c.isDigit = false) ∧ findDecimal cs = []) ∨
    ∃ pre m post, cs = pre ++ (m ++ post) ∧ (∀ c ∈ pre, c.isDigit = false) ∧
      matchDecimal (m ++ post) = some (m, post) ∧ findDecimal cs = m := by
  induction cs with
  | nil => exact Or.inl ⟨by simp, rfl⟩
  | cons c cs ih =>
    by_cases hc : c.isDigit = true
    · right
      obtain ⟨m, rest, hm⟩ := (matchDecimal_head c cs).2 hc
      have hcat := (matchDecimal_spec _ _ _ hm).1
      refine ⟨[], m, rest, by simpa using hcat, by simp, by rw [← hcat]; exact hm, ?_⟩
      unfold findDecimal
      rw [hm]
    · have hc' : c.isDigit = false := by simpa using hc
      have hnone := (matchDecimal_head c cs).1 hc'
      have hfd : findDecimal (c :: cs) = findDecimal cs := by
        conv_lhs => unfold findDecimal
        rw [hnone]
      rcases ih with ⟨hno, hnil⟩ | ⟨pre, m, post, hcs, hpre, hmd, hfm⟩
      · left
        refine ⟨?_, by rw [hfd, hnil]⟩
        intro x hx
        rcases List.mem_cons.mp hx with rfl | hx
        · exact hc'
        · exact hno x hx
      · right
        refine ⟨c :: pre, m, post, by rw [hcs]; rfl, ?_, hmd, by rw [hfd, hfm]⟩
        intro x hx
        rcases List.mem_cons.mp hx with rfl | hx
        · exact hc'
        · exact hpre x hx

theorem decimalForm_head (m : List Char) (h : DecimalForm m) :
    ∃ c r, m = c :: r ∧ c.isDigit = true := by
  rcases h with ⟨hne, hall⟩ | ⟨i, f, hm, hi, halli, _, _⟩
  · cases m with
    | nil => exact absurd rfl hne
    | cons c r => exact ⟨c, r, rfl, List.all_eq_true.mp hall c (List.mem_cons_self _ _)⟩
  · cases i with
    | nil => exact absurd rfl hi
    | cons c r =>
      exact ⟨c, r ++ '.' :: f, by rw [hm]; rfl,
        List.all_eq_true.mp halli c (List.mem_cons_self _ _)⟩

theorem leftmost_of_no_digit (pre x pre' m' y : List Char)
    (hpre : ∀ c ∈ pre, c.isDigit = false) (hm' : DecimalForm m')
    (h : pre ++ x = pre' ++ (m' ++ y)) : pre.length ≤ pre'.length := by
  obtain ⟨c, r, hm, hc⟩ := decimalForm_head m' hm'
  rcases List.append_eq_append_iff.mp h with ⟨a', ha, _⟩ | ⟨c', hc', hx⟩
  · rw [ha]; simp
  · cases c' with
    | nil => rw [hc']; simp
    | cons z zs =>
      exfalso
      rw [hm] at hx
      injection hx with e1 _
      have hz : z ∈ pre := by rw [hc']; simp
      have := hpre z hz
      rw [← e1, hc] at this
      exact Bool.noConfusion this

theorem longest_of_matchDecimal (m post m' post' : List Char)
    (hmd : matchDecimal (m ++ post) = some (m, post)) (hm' : DecimalForm m')
    (h : m ++ post = m' ++ post') : m'.length ≤ m.length := by
  rcases List.append_eq_append_iff.mp h with ⟨a', ha, hpost⟩ | ⟨c', hc', _⟩
  · cases a' with
    | nil => rw [ha]; simp
    | cons x a'' =>
      exfalso
      have hpt : ('.' : Char).isDigit = false := by decide
      rcases (matchDecimal_spec _ _ _ hmd).2 with ⟨_, hall, hrest⟩ | ⟨i, f, hm, _, halli, _, hallf, hrest⟩
      · obtain ⟨hx, hnext⟩ := hrest x (a'' ++ post') hpost
        rcases hm' with ⟨_, hall'⟩ | ⟨i', f', hm2, _, halli', hf', hallf'⟩
        · rw [ha, List.all_append] at hall'
          have := (Bool.and_eq_true _ _).mp hall'
          have hx' := List.all_eq_true.mp this.2 x (List.mem_cons_self _ _)
          rw [hx] at hx'
          exact Bool.noConfusion hx'
        · rw [ha] at hm2
          obtain ⟨_, e2, e3⟩ := digits_split_unique m i' a'' f' x '.' hall halli' hx hpt hm2
          cases f' with
          | nil => exact hf' rfl
          | cons d r' =>
            have hd := List.all_eq_true.mp hallf' d (List.mem_cons_self _ _)
            have := hnext e2 d (r' ++ post') (by rw [e3]; rfl)
            rw [hd] at this
            exact Bool.noConfusion this
      · have hx := hrest x (a'' ++ post') hpost
        rcases hm' with ⟨_, hall'⟩ | ⟨i', f', hm2, _, halli', _, hallf'⟩
        · rw [ha, hm] at hall'
          have hmem : ('.' : Char) ∈ (i ++ '.' :: f) ++ x :: a'' := by simp
          have := List.all_eq_true.mp hall' '.' hmem
          rw [hpt] at this
          exact Bool.noConfusion this
        · rw [ha, hm] at hm2
          have hm3 : i ++ '.' :: (f ++ x :: a'') = i' ++ '.' :: f' := by
            rw [← hm2]; simp
          obtain ⟨_, _, e3⟩ := digits_split_unique i i' _ f' '.' '.' halli halli' hpt hpt hm3
          have hmem : x ∈ f' := by rw [← e3]; simp
          have := List.all_eq_true.mp hallf' x hmem
          rw [hx] at this
          exact Bool.noConfusion this
  · rw [hc']; simp

theorem decimalForm_of_matchDecimal (m post : List Char)
    (hmd : matchDecimal (m ++ post) = some (m, post)) : DecimalForm m := by
  rcases (matchDecimal_spec _ _ _ hmd).2 with ⟨hne, hall, _⟩ | ⟨i, f, hm, hi, halli, hf, hallf, _⟩
  · exact Or.inl ⟨hne, hall⟩
  · exact Or.inr ⟨i, f, hm, hi, halli, hf, hallf⟩

/-- C11 as amended. With `strconv.ParseFloat` refusing the empty text and
reading a text of the form digits or digits.digits, when it does not refuse
it, as a finite number that is not negative: the amount is 0 when the message
cannot be decoded, 0 when `paysubtype` is 3 whatever `feedesc` holds, and 0 when
`feedesc` has no digit; otherwise `feedesc` is `pre ++ m ++ post` where `m` is
the leftmost text of the form digits or digits.digits and the longest one
starting there, and the amount is what `ParseFloat` reads from `m`, or 0 when
`ParseFloat` refuses `m` (a value beyond the range of `float64`). In every case
the result is a finite number that is not negative. -/
theorem extractAmountFromXML_spec (Unmarshal : String → Option WcpayInfo)
    (ParseFloat : String → Option Float64) (content : String)
    (hE : ParseFloat "" = none)
    (hN : ∀ m, DecimalForm m → ParseFloat (String.mk m) = none ∨
      ∃ q : Rat, 0 ≤ q ∧ ParseFloat (String.mk m) = some (some (.fin q))) :
    (Unmarshal content = none →
      extractAmountFromXML Unmarshal ParseFloat content = some (.fin 0)) ∧
    (∀ info, Unmarshal content = some info →
      (info.PaySubType = 3 →
        extractAmountFromXML Unmarshal ParseFloat content = some (.fin 0)) ∧
      (info.PaySubType ≠ 3 → (∀ c ∈ info.FeeDesc.data, c.isDigit = false) →
        extractAmountFromXML Unmarshal ParseFloat content = some (.fin 0)) ∧
      (info.PaySubType ≠ 3 → (∃ c ∈ info.FeeDesc.data, c.isDigit = true) →
        ∃ pre m post, info.FeeDesc.data = pre ++ (m ++ post) ∧ DecimalForm m ∧
          (∀ pre' m' post', DecimalForm m' → info.FeeDesc.data = pre' ++ (m' ++ post') →
            pre.length ≤ pre'.length) ∧
          (∀ m' post', DecimalForm m' → info.FeeDesc.data = pre ++ (m' ++ post') →
            m'.length ≤ m.length) ∧
          extractAmountFromXML Unmarshal ParseFloat content =
            (ParseFloat (String.mk m)).getD (some (.fin 0)))) ∧
    (∃ q : Rat, 0 ≤ q ∧ extractAmountFromXML Unmarshal ParseFloat content = some (.fin q)) := by
  have hzero : ∃ q : Rat, 0 ≤ q ∧ (some (Num.fin 0) : Float64) = some (.fin q) :=
    ⟨0, le_refl _, rfl⟩
  refine ⟨?_, ?_, ?_⟩
  · intro h
    unfold extractAmountFromXML
    rw [h]
  · intro info h
    refine ⟨?_, ?_, ?_⟩
    · intro h3
      unfold extractAmountFromXML
      rw [h]
      dsimp only
      rw [if_pos h3]
    · intro h3 hno
      unfold extractAmountFromXML
      rw [h]
      dsimp only
      rw [if_neg h3]
      rcases findDecimal_spec info.FeeDesc.data with ⟨_, hnil⟩ | ⟨pre, m, post, hcs, _, hmd, _⟩
      · rw [hnil]
        have : String.mk [] = "" := rfl
        rw [this, hE]
      · exfalso
        obtain ⟨c, r, hm, hc⟩ := decimalForm_head m (decimalForm_of_matchDecimal m post hmd)
        have hmem : c ∈ info.FeeDesc.data := by rw [hcs, hm]; simp
        have := hno c hmem
        rw [hc] at this
        exact Bool.noConfusion this
    · intro h3 ⟨c, hc, hdig⟩
      rcases findDecimal_spec info.FeeDesc.data with ⟨hno, _⟩ | ⟨pre, m, post, hcs, hpre, hmd, hfm⟩
      · exfalso
        have := hno c hc
        rw [hdig] at this
        exact Bool.noConfusion this
      · refine ⟨pre, m, post, hcs, decimalForm_of_matchDecimal m post hmd, ?_, ?_, ?_⟩
        · intro pre' m' post' hm' h'
          exact leftmost_of_no_digit pre (m ++ post) pre' m' post' hpre hm' (by rw [← hcs, h'])
        · intro m' post' hm' h'
          have : m ++ post = m' ++ post' := List.append_cancel_left (by rw [← hcs, h'])
          exact longest_of_matchDecimal m post m' post' hmd hm' this
        · unfold extractAmountFromXML
          rw [h]
          dsimp only
          rw [if_neg h3, hfm]
          cases ParseFloat (String.mk m) <;> rfl
  · unfold extractAmountFromXML
    cases Unmarshal content with
    | none => exact hzero
    | some info =>
      dsimp only
      by_cases h3 : info.PaySubType = 3
      · rw [if_pos h3]; exact hzero
      · rw [if_neg h3]
        rcases findDecimal_spec info.FeeDesc.data with ⟨_, hnil⟩ | ⟨pre, m, post, _, _, hmd, hfm⟩
        · rw [hnil]
          have : String.mk [] = "" := rfl
          rw [this, hE]
          exact hzero
        · rw [hfm]
          rcases hN m (decimalForm_of_matchDecimal m post hmd) with hn | ⟨q, hq, hn⟩
          · rw [hn]; exact hzero
          · rw [hn]; exact ⟨q, hq, rfl⟩

theorem Atoi_nonneg_of_head_digit (s : String) (c : Char) (r : List Char)
    (hs : s.data = c :: r) (hc : c.isDigit = true) : 0 ≤ (Atoi s).1 := by
  have h1 : c ≠ '-' := isDigit_ne c _ hc (by decide)
  have h2 : c ≠ '+' := isDigit_ne c _ hc (by decide)
  have hds : (match c :: r with
      | '-' :: r => r
      | '+' :: r => r
      | r => r) = c :: r := by
    split
    · rename_i heq; injection heq with e _; exact absurd e h1
    · rename_i heq; injection heq with e _; exact absurd e h2
    · rfl
  have hneg : (match c :: r with
      | '-' :: _ => true
      | _ => false) = false := by
    split
    · rename_i heq; injection heq with e _; exact absurd e h1
    · rfl
  unfold Atoi
  rw [hs]
  simp only [hds, hneg]
  split
  · exact le_refl _
  · rw [if_neg (by simp)]
    split
    · exact Int.natCast_nonneg _
    · decide

theorem parseDecimal_nonneg (m : List Char) (hm : DecimalForm m) :
    parseDecimal (String.mk m) = none ∨
    ∃ q : Rat, 0 ≤ q ∧ parseDecimal (String.mk m) = some (some (.fin q)) := by
  obtain ⟨c, r, hcr, hc⟩ := decimalForm_head m hm
  have hnn := Atoi_nonneg_of_head_digit (String.mk m) c r hcr hc
  unfold parseDecimal
  rcases hA : Atoi (String.mk m) with ⟨n, ok⟩
  rw [hA] at hnn
  cases ok with
  | false => exact Or.inl rfl
  | true =>
    dsimp only
    split
    · exact Or.inr ⟨(n : Rat), by exact_mod_cast hnn, rfl⟩
    · exact Or.inl rfl

/-- Witness of C11 as amended: with the fee description `￥50` and flag 1 the
amount is a finite number that is not negative, and it is 50. -/
theorem extractAmountFromXML_spec_witness :
    parseDecimal "" = none ∧
    (∃ q : Rat, 0 ≤ q ∧
      extractAmountFromXML (fun _ => some ⟨1, "￥50"⟩) parseDecimal "" = some (.fin q)) ∧
    extractAmountFromXML (fun _ => some ⟨1, "￥50"⟩) parseDecimal "" = some (.fin 50) :=
  ⟨by decide,
   (extractAmountFromXML_spec (fun _ => some ⟨1, "￥50"⟩) parseDecimal "" (by decide)
      parseDecimal_nonneg).2.2,
   by decide⟩

set_option maxRecDepth 100000 in
/-- C11 as stated fails: with flag 1 and a fee description of 310 digits, which
is a text of the form digits and writes a number that is not 0 (it is
`10^309`), the amount is 0, not that number. -/
theorem extractAmount_zero_on_huge_literal :
    feeDescHuge.data.length = 310 ∧ feeDescHuge.data.all Char.isDigit = true ∧
    findDecimal feeDescHuge.data = feeDescHuge.data ∧
    digitsVal feeDescHuge.data ≠ 0 ∧
    extractAmountFromXML (fun _ => some ⟨1, feeDescHuge⟩) parseDecimal "" =
      some (.fin 0) := by
  decide

/-! ## Calls of `redeemRechargeCode` on one code (C14) -/

/-- A call whose two statements run with nothing in between is
`redeemRechargeCode`. -/
theorem redeemStatement_twice (db : DB) (code : String) :
    redeemStatement (redeemStatement db code .start).2 code (redeemStatement db code .start).1 =
      (.returned (redeemRechargeCode db code).1, (redeemRechargeCode db code).2) := by
  unfold redeemRechargeCode
  cases hf : db.recharge_records.find? (fun r => r.recharge_code == code) with
  | none => simp [redeemStatement, hf]
  | some r =>
    by_cases hused : r.used ≠ 0
    · simp [redeemStatement, hf, hused]
    · simp [redeemStatement, hf, hused]

theorem redeemTimes_used (code : String) (n : Nat) (db : DB) (hu : UniqueCodes db)
    (h : codeUsed db code) :
    redeemTimes code n db = (List.replicate n (.error .codeAlreadyUsed), db) := by
  induction n with
  | zero => rfl
  | succ n ih =>
    unfold redeemTimes
    rw [redeem_of_codeUsed db code hu h]
    dsimp only
    rw [ih]
    rfl

/-- C14 as amended. On a ledger with unique codes, when the record `r` of code
`c` is unused and `n + 1` calls of `redeemRechargeCode` on `c` run one after
another, the first succeeds with the amount of `r` and every other fails as
already used; a call whose `SELECT` and `UPDATE` run with no statement of
another call in between is such a call. -/
theorem redeem_serial_once (db : DB) (c : String) (r : RechargeRecord) (n : Nat)
    (hu : UniqueCodes db) (hr : r ∈ db.recharge_records) (hc : r.recharge_code = c)
    (h0 : r.used = 0) :
    (redeemTimes c (n + 1) db).1 =
      .ok r.amount :: List.replicate n (.error .codeAlreadyUsed) ∧
    ∀ db1 : DB,
      redeemStatement (redeemStatement db1 c .start).2 c (redeemStatement db1 c .start).1 =
        (.returned (redeemRechargeCode db1 c).1, (redeemRechargeCode db1 c).2) := by
  refine ⟨?_, fun db1 => redeemStatement_twice db1 c⟩
  have hz : ¬ r.used ≠ 0 := by simp [h0]
  have hfirst : redeemRechargeCode db c =
      (.ok r.amount, { db with recharge_records := markUsed db.recharge_records c }) := by
    unfold redeemRechargeCode
    rw [find_code_unique _ _ r hu hr hc]
    dsimp only
    rw [if_neg hz]
  obtain ⟨hused, hrec⟩ := redeem_ok_state db _ c r.amount hfirst
  have hu1 : UniqueCodes { db with recharge_records := markUsed db.recharge_records c } := by
    unfold UniqueCodes at hu ⊢
    exact markUsed_unique _ _ hu
  unfold redeemTimes
  rw [hfirst]
  dsimp only
  rw [redeemTimes_used c n _ hu1 hused]

/-- Witness of C14 as amended: three calls on code `"5"` of `dbMismatch`, one
after another. -/
theorem redeem_serial_once_witness :
    UniqueCodes dbMismatch ∧
    (redeemTimes "5" 3 dbMismatch).1 =
      [.ok (.fin 5), .error .codeAlreadyUsed, .error .codeAlreadyUsed] :=
  ⟨by decide,
   (redeem_serial_once dbMismatch "5"
      { id := 1, amount := .fin 5, recharge_code := "5", used := 0 } 2
      (by decide) (by decide) rfl rfl).1⟩

/-- C14 as stated fails: two calls on the unused code `"5"` of `dbMismatch`,
the second running its `SELECT` between the `SELECT` and the `UPDATE` of the
first (schedule 0, 1, 0, 1), both return the amount 5. -/
theorem redeem_interleaved_twice :
    interleave "5" [0, 1, 0, 1] (dbMismatch, [.start, .start]) =
      ({ recharge_records := [{ id := 1, amount := .fin 5, recharge_code := "5", used := 1 }],
         trade_items := dbMismatch.trade_items },
       [.returned (.ok (.fin 5)), .returned (.ok (.fin 5))]) := by
  decide

/-! ## From the shown item to the start of the trade (C15) -/

theorem digitChar_digit : ∀ k, k < 10 →
    (Nat.digitChar k).isDigit = true ∧ (Nat.digitChar k).toNat - 48 = k := by
  decide

theorem ofNat_digit : ∀ k, k < 10 → (Char.ofNat (48 + k)).isDigit = true := by
  decide

theorem digitsVal_append_one (l : List Char) (d : Char) :
    digitsVal (l ++ [d]) = 10 * digitsVal l + (d.toNat - 48) := by
  unfold digitsVal
  rw [List.foldl_append]
  rfl

/-- The digits `Nat.toDigitsCore` puts before `ds`, with enough fuel: a run of
ASCII digits that writes `n`. -/
theorem toDigitsCore_spec (fuel : Nat) : ∀ (n : Nat) (ds : List Char), n < fuel →
    ∃ l, Nat.toDigitsCore 10 fuel n ds = l ++ ds ∧ l ≠ [] ∧
      l.all Char.isDigit = true ∧ digitsVal l = n := by
  induction fuel with
  | zero => intro n ds h; exact absurd h (Nat.not_lt_zero _)
  | succ fuel ih =>
    intro n ds h
    have hd := digitChar_digit (n % 10) (Nat.mod_lt _ (by decide))
    simp only [Nat.toDigitsCore]
    by_cases h0 : n / 10 = 0
    · rw [if_pos h0]
      refine ⟨[Nat.digitChar (n % 10)], rfl, by simp, by simp [hd.1], ?_⟩
      have hlt : n < 10 := by omega
      have h2 := hd.2
      rw [Nat.mod_eq_of_lt hlt] at h2
      simp [digitsVal, Nat.mod_eq_of_lt hlt, h2]
    · rw [if_neg h0]
      have hlt : n / 10 < fuel := by omega
      obtain ⟨l, hl, hne, hall, hval⟩ := ih (n / 10) (Nat.digitChar (n % 10) :: ds) hlt
      refine ⟨l ++ [Nat.digitChar (n % 10)], by rw [hl]; simp, by simp, ?_, ?_⟩
      · rw [List.all_append, hall]
        simp [hd.1]
      · rw [digitsVal_append_one, hval, hd.2]
        omega

/-- The text `%d` prints for an id: one or more ASCII digits that write it. -/
theorem toString_nat_spec (n : Nat) :
    (toString n).data ≠ [] ∧ (toString n).data.all Char.isDigit = true ∧
    digitsVal (toString n).data = n := by
  obtain ⟨l, hl, hne, hall, hval⟩ := toDigitsCore_spec (n + 1) n [] (Nat.lt_succ_self n)
  have hdata : (toString n).data = l := by
    show (Nat.toDigits 10 n).asString.data = l
    unfold Nat.toDigits
    rw [hl]
    simp [List.asString]
  rw [hdata]
  exact ⟨hne, hall, hval⟩

theorem Atoi_toString (n : Nat) (h : n < 9223372036854775808) :
    Atoi (toString n) = ((n : Int), true) := by
  obtain ⟨hne, hall, hval⟩ := toString_nat_spec n
  have := Atoi_digits (toString n) hne hall (by rw [hval]; exact h)
  rw [hval] at this
  exact this

theorem dropWhile_digits_stop (a u : List Char) (x : Char)
    (ha : a.all Char.isDigit = true) (hx : x.isDigit = false) :
    (a ++ x :: u).dropWhile Char.isDigit = x :: u := by
  have h := List.takeWhile_append_dropWhile Char.isDigit (a ++ x :: u)
  rw [takeWhile_digits_stop a u x ha hx] at h
  exact List.append_cancel_left h

theorem span_digits_stop (a u : List Char) (x : Char)
    (ha : a.all Char.isDigit = true) (hx : x.isDigit = false) :
    (a ++ x :: u).span Char.isDigit = (a, x :: u) := by
  rw [List.span_eq_take_drop, takeWhile_digits_stop a u x ha hx,
    dropWhile_digits_stop a u x ha hx]

/-- The pattern `\d+(\.\d+)?` on digits, a point, digits and a character that is
no digit. -/
theorem matchDecimal_point (i f rest : List Char) (x : Char)
    (hi : i ≠ []) (halli : i.all Char.isDigit = true)
    (hf : f ≠ []) (hallf : f.all Char.isDigit = true) (hx : x.isDigit = false) :
    matchDecimal (i ++ '.' :: (f ++ x :: rest)) = some (i ++ '.' :: f, x :: rest) := by
  unfold matchDecimal
  rw [span_digits_stop i _ '.' halli (by decide)]
  cases i with
  | nil => exact absurd rfl hi
  | cons i0 is =>
    dsimp only
    rw [if_pos rfl, span_digits_stop f rest x hallf hx]
    cases f with
    | nil => exact absurd rfl hf
    | cons f0 fs => rfl

/-- The text `%.2f` prints for a finite value that is not negative: digits, a
point and two digits. -/
theorem Sprintf2f_form (q : Rat) (hq : 0 ≤ q) :
    ∃ i f, (Sprintf2f (.fin q)).data = i ++ '.' :: f ∧ i ≠ [] ∧
      i.all Char.isDigit = true ∧ f ≠ [] ∧ f.all Char.isDigit = true := by
  obtain ⟨hne, hall, _⟩ := toString_nat_spec (cents q / 100)
  refine ⟨(toString (cents q / 100)).data, twoDigits (cents q % 100), ?_, hne, hall, ?_, ?_⟩
  · simp only [Sprintf2f, if_neg (not_lt.mpr hq), String.data_append]
    simp
  · simp [twoDigits]
  · have hb : cents q % 100 < 100 := Nat.mod_lt _ (by decide)
    have h1 := ofNat_digit (cents q % 100 / 10 % 10) (Nat.mod_lt _ (by decide))
    have h2 := ofNat_digit (cents q % 100 % 10) (Nat.mod_lt _ (by decide))
    simp [twoDigits, h1, h2]

theorem matchPriceDesc_form (i f desc : List Char)
    (hi : i ≠ []) (halli : i.all Char.isDigit = true)
    (hf : f ≠ []) (hallf : f.all Char.isDigit = true) (hd : lineFeed ∉ desc) :
    matchPriceDesc ("，价格：".data ++ ((i ++ '.' :: f) ++ ("，描述：".data ++ desc))) =
      some (i ++ '.' :: f) := by
  have hlit : ("，描述：" : String).data = '，' :: ("描述：" : String).data := rfl
  have hmd : matchDecimal ((i ++ '.' :: f) ++ ("，描述：".data ++ desc)) =
      some (i ++ '.' :: f, "，描述：".data ++ desc) := by
    have := matchDecimal_point i f ("描述：".data ++ desc) '，' hi halli hf hallf (by decide)
    rw [hlit]
    simpa using this
  have hno : ((desc.dropWhile isSpace).all (fun c => c != lineFeed)) = true := by
    rw [List.all_eq_true]
    intro c hc
    have hmem : c ∈ desc := (List.dropWhile_suffix isSpace).subset hc
    have : c ≠ lineFeed := fun e => hd (e ▸ hmem)
    simpa using this
  unfold matchPriceDesc
  rw [dropLit_append, Option.some_bind, hmd]
  dsimp only
  rw [dropLit_append]
  dsimp only
  rw [if_pos hno]

theorem matchNamePrice_exists (name tail price : List Char) (hne : name ≠ [])
    (hlf : lineFeed ∉ name) (ht : matchPriceDesc tail = some price) :
    ∃ name' price', matchNamePrice (name ++ tail) = some (name', price') := by
  induction name with
  | nil => exact absurd rfl hne
  | cons c cs ih =>
    have hc : c ≠ lineFeed := fun e => hlf (by rw [e]; exact List.mem_cons_self _ _)
    have hcs : lineFeed ∉ cs := fun e => hlf (List.mem_cons_of_mem _ e)
    show ∃ name' price', matchNamePrice (c :: (cs ++ tail)) = some (name', price')
    unfold matchNamePrice
    rw [if_neg hc]
    cases hrec : matchNamePrice (cs ++ tail) with
    | some np => exact ⟨c :: np.1, np.2, rfl⟩
    | none =>
      cases cs with
      | nil =>
        simp only [List.nil_append] at hrec ⊢
        rw [ht]
        exact ⟨[c], price, rfl⟩
      | cons c2 cs2 =>
        obtain ⟨n', p', h'⟩ := ih (by simp) hcs
        rw [h'] at hrec
        exact absurd hrec (by simp)

theorem matchTradeStart_form (idd rest name price : List Char)
    (hne : idd ≠ []) (hall : idd.all Char.isDigit = true)
    (hnp : matchNamePrice rest = some (name, price)) :
    matchTradeStart ("开始交易".data ++ (idd ++ ("号，名称：".data ++ rest))) =
      some (idd, name, price) := by
  have hlit : ("号，名称：" : String).data = '号' :: ("，名称：" : String).data := rfl
  have hspan : (idd ++ ("号，名称：".data ++ rest)).span Char.isDigit =
      (idd, "号，名称：".data ++ rest) := by
    rw [hlit]
    exact span_digits_stop idd _ '号' hall (by decide)
  unfold matchTradeStart
  rw [dropLit_append]
  dsimp only
  rw [hspan]
  cases idd with
  | nil => exact absurd rfl hne
  | cons d ds =>
    dsimp only
    rw [dropLit_append, Option.some_bind, hnp]

theorem find_of_unique {α : Type} (l : List α) (p : α → Bool) (t : α) (hmem : t ∈ l)
    (hp : p t = true) (huniq : ∀ u ∈ l, p u = true → u = t) : l.find? p = some t := by
  cases hf : l.find? p with
  | none =>
    rw [List.find?_eq_none] at hf
    exact absurd hp (hf t hmem)
  | some u =>
    rw [huniq u (List.mem_of_find?_eq_some hf) (List.find?_some hf)]

theorem startTradeText_data (t : TradeItem) :
    (startTradeText t).data =
      "开始交易".data ++ ((toString t.id).data ++ ("号，名称：".data ++ (t.item_name.data ++
        ("，价格：".data ++ ((Sprintf2f t.price).data ++ ("，描述：".data ++
          t.description.data)))))) := by
  unfold startTradeText
  rw [String.data_append, String.data_append, String.data_append, String.data_append,
    String.data_append, String.data_append, String.data_append]
  simp only [List.append_assoc]

/-- C15. For every stored trade item `t`, alone in the table with its id (the
primary key), whose id fits the Go `int`, whose name is not empty, whose price
is finite and not negative, and whose name and description hold no line feed:
`handleSpecificTradeItem`, asked for the id of `t`, sends the text
`开始交易<id>号，名称：<name>，价格：<price with two decimals>，描述：<description>`;
that text matches the start-trade pattern of `handleGroupMessage` with the
digits of the id as first group, `strconv.Atoi` reads the id of `t` from them,
and the handler, given the text in a group, answers with the start of the
trade and leaves the ledger as it was except that `t` has the group as its
`group_id`. -/
theorem show_then_start_trade (ParseFloat : String → Option Float64)
    (Sscanf : String → Option Int) (db : DB) (sender : GroupSender) (t : TradeItem) (q : Rat)
    (hmem : t ∈ db.trade_items) (hkey : ∀ u ∈ db.trade_items, u.id = t.id → u = t)
    (hid : t.id < 9223372036854775808) (hname : t.item_name.data ≠ [])
    (hprice : t.price = .fin q) (hq : 0 ≤ q)
    (hnlf : lineFeed ∉ t.item_name.data) (hdlf : lineFeed ∉ t.description.data) :
    (∀ content, Sscanf content = some (t.id : Int) →
      handleSpecificTradeItem Sscanf db content =
        [Out.ReplyText (startTradeText t)] ++
          (if t.image_file_name ≠ "" then [Out.sendPicture t.image_file_name] else []) ++
          [Out.ReplyText "扫描上面二维码进群，复制上面的话到群中进行下一步交易"]) ∧
    (∃ name price,
      matchTradeStart (startTradeText t).data = some ((toString t.id).data, name, price)) ∧
    (Atoi (toString t.id)).1 = (t.id : Int) ∧
    (handleGroupMessage ParseFloat db sender (startTradeText t)).1.head? =
      some (.ReplyText "现在开始交易，请买家扫描下方二维码联系微信转账，进行下一步指示") ∧
    (handleGroupMessage ParseFloat db sender (startTradeText t)).2 =
      { recharge_records := db.recharge_records,
        trade_items := db.trade_items.map
          (fun u => if u = t then { t with group_id := sender.qun } else u) } := by
  obtain ⟨hidne, hidall, _⟩ := toString_nat_spec t.id
  obtain ⟨i, f, hpf, hi, halli, hf, hallf⟩ := Sprintf2f_form q hq
  have hpd := matchPriceDesc_form i f t.description.data hi halli hf hallf hdlf
  obtain ⟨name, price, hnp⟩ := matchNamePrice_exists t.item_name.data _ _ hname hnlf hpd
  have hts : matchTradeStart (startTradeText t).data =
      some ((toString t.id).data, name, price) := by
    rw [startTradeText_data, hprice, hpf]
    exact matchTradeStart_form _ _ name price hidne hidall hnp
  have hatoi := Atoi_toString t.id hid
  have hmap : db.trade_items.map (fun u =>
        if (u.id : Int) = (t.id : Int) then { u with group_id := sender.qun } else u) =
      db.trade_items.map (fun u => if u = t then { t with group_id := sender.qun } else u) := by
    apply List.map_congr_left
    intro u hu
    by_cases hut : u = t
    · subst hut
      simp
    · have hne : ¬ (u.id : Int) = (t.id : Int) := by
        intro e
        exact hut (hkey u hu (by exact_mod_cast e))
      rw [if_neg hne, if_neg hut]
  have hfind : db.trade_items.find? (fun u => (u.id : Int) == (t.id : Int)) = some t :=
    find_of_unique _ _ t hmem (by simp) (fun u hu hp => hkey u hu (by simpa using hp))
  refine ⟨?_, ⟨name, price, hts⟩, by rw [hatoi], ?_, ?_⟩
  · intro content hscan
    unfold handleSpecificTradeItem getTradeItemByID
    rw [hscan]
    dsimp only
    rw [hfind]
    rfl
  · unfold handleGroupMessage
    rw [hts]
    rfl
  · unfold handleGroupMessage
    rw [hts]
    dsimp only
    have hmk : String.mk (toString t.id).data = toString t.id := rfl
    rw [hmk, hatoi]
    unfold bindTradeItemToGroup
    dsimp only
    rw [hmap]

/-- Witness of C15: the item of `dbOneSold` (id 3, 手办, price 50), shown and
then started in the group `"h"`. -/
theorem show_then_start_trade_witness :
    itemSold ∈ dbOneSold.trade_items ∧
    startTradeText itemSold = "开始交易3号，名称：手办，价格：50.00，描述：限量版" ∧
    (handleGroupMessage parseDecimal dbOneSold
        { qun := "h", nick := "老王", userName := "u", groups := some [], sendtupianOk := true }
        (startTradeText itemSold)).2 =
      { recharge_records := dbOneSold.recharge_records,
        trade_items := dbOneSold.trade_items.map
          (fun u => if u = itemSold then { itemSold with group_id := "h" } else u) } :=
  ⟨by decide, by decide,
   (show_then_start_trade parseDecimal (fun _ => some 3) dbOneSold
      { qun := "h", nick := "老王", userName := "u", groups := some [], sendtupianOk := true }
      itemSold 50 (by decide) (by decide) (by decide) (by decide) rfl (by decide) (by decide)
      (by decide)).2.2.2.2⟩

end Wxbox
